import Mathlib

/-!
Verification of the execution-orchestration core of the aegis-rpa-agent
backend, as a shallow embedding in Lean 4.

Each Python component that the claims touch is translated into executable
Lean definitions:

* `retry_with_backoff` — `RPAEngine._retry_with_backoff` (rpa_engine.py)
* session registry      — `SessionManager` (session_manager.py)
* resource ledger       — `ResourceManager.cleanup_all` (resource_manager.py)
* plan cache            — `PlanCache` (plan_cache.py)
* plan runner           — `ADKAgentManager.execute_instruction` (adk_agent.py)
* dispatcher relay      — `process_execution_queue` (main.py)

Conventions: Python `None`-able values become `Option`; a thrown Python
exception becomes `Except.error` carrying `str(e)`; wall-clock instants
become an explicit `Int` parameter `now`; `time.sleep` calls are recorded
in an explicit trace list.  Python's truthiness test on a required `str`
field is translated as `≠ ""`.
-/

/-- Modelled from the spec: `ToolResult` — the `{success, data|error}`
record every Actuator primitive returns (`src/models.py` is not in the
provided sources; shape per §6 of the spec and `tests/unit/test_models.py`). -/
structure ToolResult where
  success : Bool
  data : Option String := none
  error : Option String := none
deriving DecidableEq

/-- Modelled from the spec: `ActionResult` — success flag, retry_count,
optional error (`src/models.py` is not in the provided sources; shape per
§3 of the spec and `tests/unit/test_models.py`). -/
structure ActionResult where
  success : Bool
  retry_count : Nat
  error : Option String := none
deriving DecidableEq

/-- The behaviour of one action under repeated attempts: attempt index ↦
either a thrown exception message (`Except.error`) or a returned
`ToolResult`.  This is the shallow embedding of the `action_func` closure
given to `RPAEngine._retry_with_backoff`. -/
def ActionBehaviour : Type := Nat → Except String ToolResult

/-- `RPAEngine.__init__`: `self.retry_delays = [1, 2, 4]`. -/
def retry_delays : List Nat := [1, 2, 4]

/-- `error=last_error or "Action failed after all retries"` on the
exhausted-retries return path of `_retry_with_backoff` (Python `or`
replaces both `None` and the empty string). -/
def lastErrorOr (e : Option String) : String :=
  match e with
  | none => "Action failed after all retries"
  | some s => if s = "" then "Action failed after all retries" else s

/-- The `for attempt in range(self.max_retries)` loop of
`RPAEngine._retry_with_backoff`, with `fuel` = remaining loop iterations
(`attempt + fuel = max_retries` at every call).  Returns the result —
`Except.error ()` models the uncaught `IndexError` when
`self.retry_delays[attempt]` is read out of bounds — together with the
trace of `time.sleep` delays performed. -/
def retryGo (action : ActionBehaviour) (maxRetries : Nat) :
    Nat → Nat → Nat → Option String → List Nat →
      Except Unit ActionResult × List Nat
  | 0, _, retryCount, lastError, sleeps =>
      (Except.ok { success := false, retry_count := retryCount,
                   error := some (lastErrorOr lastError) }, sleeps)
  | fuel + 1, attempt, retryCount, _lastError, sleeps =>
      match action attempt with
      | Except.ok tr =>
          if tr.success then
            (Except.ok { success := true, retry_count := retryCount,
                         error := none }, sleeps)
          else
            if attempt < maxRetries - 1 then
              match retry_delays[attempt]? with
              | some d =>
                  retryGo action maxRetries fuel (attempt + 1)
                    (retryCount + 1) tr.error (sleeps ++ [d])
              | none => (Except.error (), sleeps)
            else
              retryGo action maxRetries fuel (attempt + 1)
                (retryCount + 1) tr.error sleeps
      | Except.error e =>
          if attempt < maxRetries - 1 then
            match retry_delays[attempt]? with
            | some d =>
                retryGo action maxRetries fuel (attempt + 1)
                  (retryCount + 1) (some e) (sleeps ++ [d])
            | none => (Except.error (), sleeps)
          else
            retryGo action maxRetries fuel (attempt + 1)
              (retryCount + 1) (some e) sleeps

/-- `RPAEngine._retry_with_backoff(action_func, ...)` for an engine built
with `RPAEngine(max_retries=maxRetries)`:
`retry_count = 0; last_error = None; for attempt in range(max_retries): ...`. -/
def retry_with_backoff (maxRetries : Nat) (action : ActionBehaviour) :
    Except Unit ActionResult × List Nat :=
  retryGo action maxRetries maxRetries 0 0 none []

/-- Attempt `i` of the action counts as failed: the tool reported
`success=False` or the call raised. -/
def failsAt (action : ActionBehaviour) (i : Nat) : Bool :=
  match action i with
  | Except.ok tr => !tr.success
  | Except.error _ => true

/-- Attempt `i` of the action returns `success=True`. -/
def succeedsAt (action : ActionBehaviour) (i : Nat) : Bool :=
  match action i with
  | Except.ok tr => tr.success
  | Except.error _ => false

/-- The error `_retry_with_backoff` records for a failed attempt `i`:
`last_error = tool_result.error` or `last_error = str(e)`. -/
def errorAt (action : ActionBehaviour) (i : Nat) : Option String :=
  match action i with
  | Except.ok tr => tr.error
  | Except.error e => some e

/-- Whether the retry loop returned normally (no out-of-bounds read of
the delay table). -/
def returnsResult (r : Except Unit ActionResult × List Nat) : Bool :=
  match r.1 with
  | Except.ok _ => true
  | Except.error _ => false

theorem retry_delays_getElem (i : Nat) (h : i < 3) :
    retry_delays[i]? = some (2 ^ i) := by
  interval_cases i <;> rfl

theorem retryGo_success (action : ActionBehaviour) (maxRetries : Nat)
    (k : Nat) :
    ∀ fuel attempt retryCount lastError sleeps,
      attempt + fuel = maxRetries → k < fuel →
      (∀ j, j < k → failsAt action (attempt + j) = true) →
      succeedsAt action (attempt + k) = true →
      (∀ j, j < k → attempt + j < 3) →
      retryGo action maxRetries fuel attempt retryCount lastError sleeps =
        (Except.ok { success := true, retry_count := retryCount + k,
                     error := none },
         sleeps ++ (List.range' attempt k).map fun i => 2 ^ i) := by
  induction k with
  | zero =>
    intro fuel attempt retryCount lastError sleeps hinv hk _ hsucc _
    obtain ⟨f, rfl⟩ : ∃ f, fuel = f + 1 :=
      ⟨fuel - 1, (Nat.succ_pred_eq_of_pos hk).symm⟩
    rw [Nat.add_zero] at hsucc
    cases hact : action attempt with
    | ok tr =>
      simp only [succeedsAt, hact] at hsucc
      simp [retryGo, hact, hsucc]
    | error e =>
      simp only [succeedsAt, hact] at hsucc
      exact absurd hsucc (by simp)
  | succ k ih =>
    intro fuel attempt retryCount lastError sleeps hinv hk hfail hsucc hsafe
    obtain ⟨f, rfl⟩ : ∃ f, fuel = f + 1 :=
      ⟨fuel - 1, (Nat.succ_pred_eq_of_pos (Nat.lt_of_le_of_lt (Nat.zero_le _) hk)).symm⟩
    have hfail0 : failsAt action attempt = true := by
      simpa using hfail 0 (Nat.succ_pos k)
    have hlt : attempt < maxRetries - 1 := by omega
    have hidx : retry_delays[attempt]? = some (2 ^ attempt) :=
      retry_delays_getElem attempt (by simpa using hsafe 0 (Nat.succ_pos k))
    have hrec : ∀ le', retryGo action maxRetries f (attempt + 1)
        (retryCount + 1) le' (sleeps ++ [2 ^ attempt]) =
        (Except.ok { success := true, retry_count := (retryCount + 1) + k,
                     error := none },
         (sleeps ++ [2 ^ attempt]) ++ (List.range' (attempt + 1) k).map fun i => 2 ^ i) := by
      intro le'
      apply ih f (attempt + 1) (retryCount + 1) le' (sleeps ++ [2 ^ attempt])
      · omega
      · omega
      · intro j hj
        have := hfail (j + 1) (by omega)
        simpa [Nat.add_assoc, Nat.add_comm 1 j] using this
      · have := hsucc
        simpa [Nat.add_assoc, Nat.add_comm 1 k] using this
      · intro j hj
        have := hsafe (j + 1) (by omega)
        omega
    have hres : retryGo action maxRetries (f + 1) attempt retryCount lastError sleeps =
        (Except.ok { success := true, retry_count := (retryCount + 1) + k,
                     error := none },
         (sleeps ++ [2 ^ attempt]) ++ (List.range' (attempt + 1) k).map fun i => 2 ^ i) := by
      cases hact : action attempt with
      | ok tr =>
        simp only [failsAt, hact, Bool.not_eq_true'] at hfail0
        simp only [retryGo, hact, hfail0, Bool.false_eq_true, if_false,
          if_pos hlt, hidx]
        exact hrec tr.error
      | error e =>
        simp only [retryGo, hact, if_pos hlt, hidx]
        exact hrec (some e)
    rw [hres, List.range'_succ]
    simp [Nat.add_assoc, Nat.add_comm 1 k]

theorem retryGo_allfail (action : ActionBehaviour) (maxRetries : Nat) :
    ∀ fuel attempt retryCount lastError sleeps,
      attempt + fuel = maxRetries →
      (∀ j, j < fuel → failsAt action (attempt + j) = true) →
      (∀ j, j + 1 < fuel → attempt + j < 3) →
      retryGo action maxRetries fuel attempt retryCount lastError sleeps =
        (Except.ok { success := false, retry_count := retryCount + fuel,
                     error := some (lastErrorOr
                       (if fuel = 0 then lastError
                        else errorAt action (attempt + fuel - 1))) },
         sleeps ++ (List.range' attempt (fuel - 1)).map fun i => 2 ^ i) := by
  intro fuel
  induction fuel with
  | zero =>
    intro attempt retryCount lastError sleeps _ _ _
    simp [retryGo]
  | succ f ih =>
    intro attempt retryCount lastError sleeps hinv hfail hsafe
    have hfail0 : failsAt action attempt = true := by
      simpa using hfail 0 (Nat.succ_pos f)
    have step : ∀ le', le' = errorAt action attempt →
        (if attempt < maxRetries - 1 then
          match retry_delays[attempt]? with
          | some d =>
              retryGo action maxRetries f (attempt + 1)
                (retryCount + 1) le' (sleeps ++ [d])
          | none => (Except.error (), sleeps)
        else
          retryGo action maxRetries f (attempt + 1)
            (retryCount + 1) le' sleeps) =
        (Except.ok { success := false, retry_count := retryCount + (f + 1),
                     error := some (lastErrorOr
                       (if f + 1 = 0 then lastError
                        else errorAt action (attempt + (f + 1) - 1))) },
         sleeps ++ (List.range' attempt (f + 1 - 1)).map fun i => 2 ^ i) := by
      intro le' hle'
      cases hf : f with
      | zero =>
        subst hf
        have hnot : ¬ attempt < maxRetries - 1 := by omega
        rw [if_neg hnot]
        rw [ih (attempt + 1) (retryCount + 1) le' sleeps (by omega)
          (by intro j hj; omega) (by intro j hj; omega)]
        subst hle'
        simp
      | succ f' =>
        subst hf
        have hlt : attempt < maxRetries - 1 := by omega
        have hidx : retry_delays[attempt]? = some (2 ^ attempt) := by
          apply retry_delays_getElem
          have := hsafe 0 (by omega)
          omega
        simp only [if_pos hlt, hidx]
        rw [ih (attempt + 1) (retryCount + 1) le' (sleeps ++ [2 ^ attempt])
          (by omega)
          (by intro j hj
              have := hfail (j + 1) (by omega)
              simpa [Nat.add_assoc, Nat.add_comm 1 j] using this)
          (by intro j hj
              have := hsafe (j + 1) (by omega)
              omega)]
        subst hle'
        have hr : List.range' attempt (f' + 2 - 1) =
            attempt :: List.range' (attempt + 1) (f' + 1 - 1) := by
          have h2 : f' + 2 - 1 = (f' + 1 - 1) + 1 := by omega
          rw [h2, List.range'_succ]
        rw [hr]
        refine Prod.ext ?_ ?_
        · have ha : attempt + 1 + (f' + 1) - 1 = attempt + (f' + 1 + 1) - 1 := by omega
          simp only [Nat.succ_ne_zero, if_false, ha]
          have hc : retryCount + 1 + (f' + 1) = retryCount + (f' + 1 + 1) := by omega
          simp [hc]
        · simp [Nat.add_assoc]
    cases hact : action attempt with
    | ok tr =>
      simp only [failsAt, hact, Bool.not_eq_true'] at hfail0
      simp only [retryGo, hact, hfail0, Bool.false_eq_true, if_false]
      exact step tr.error (by simp [errorAt, hact])
    | error e =>
      simp only [retryGo, hact]
      exact step (some e) (by simp [errorAt, hact])

/-- C1 — amended.  For an engine configured with `max_retries ≤ 4` (which
includes the default 3): if the action first succeeds on attempt `k`
(0-indexed, so `attempts_used = k + 1`), `_retry_with_backoff` returns
`success=True` with `retry_count = k = attempts_used - 1` and sleeps
`2^0, …, 2^(k-1)` seconds, between consecutive attempts only; if all
`max_retries` attempts fail, it returns `success=False` with the last
recorded error and `retry_count = max_retries`, having slept only after
the non-final attempts.  (For `max_retries ≥ 5` the all-fail path instead
raises `IndexError`; see the counterexample.) -/
theorem retry_backoff_spec (m : Nat) (action : ActionBehaviour) (hm : m ≤ 4) :
    (∀ k, k < m → (∀ j, j < k → failsAt action j = true) →
      succeedsAt action k = true →
      retry_with_backoff m action =
        (Except.ok { success := true, retry_count := k, error := none },
         (List.range k).map fun i => 2 ^ i))
    ∧ (0 < m → (∀ j, j < m → failsAt action j = true) →
      retry_with_backoff m action =
        (Except.ok { success := false, retry_count := m,
                     error := some (lastErrorOr (errorAt action (m - 1))) },
         (List.range (m - 1)).map fun i => 2 ^ i)) := by
  constructor
  · intro k hk hfail hsucc
    unfold retry_with_backoff
    rw [retryGo_success action m k m 0 0 none [] (by omega) hk
      (by simpa using hfail) (by simpa using hsucc)
      (by intro j hj; omega)]
    simp [List.range_eq_range']
  · intro hpos hfail
    unfold retry_with_backoff
    rw [retryGo_allfail action m m 0 0 none [] (by omega)
      (by simpa using hfail) (by intro j hj; omega)]
    have hne : ¬ m = 0 := by omega
    simp [hne, List.range_eq_range']

/-- Witness for `retry_backoff_spec`: the default engine (`max_retries=3`)
run on an action that fails twice then succeeds returns
`{success: true, retry_count: 2}` sleeping 1s then 2s, and run on an
always-raising action returns `{success: false, retry_count: 3}` with the
last error, sleeping 1s then 2s only. -/
theorem retry_backoff_spec_witness :
    retry_with_backoff 3
        (fun i => if i < 2 then Except.ok { success := false, error := some "e1" }
                  else Except.ok { success := true }) =
      (Except.ok { success := true, retry_count := 2, error := none }, [1, 2]) ∧
    retry_with_backoff 3 (fun _ => Except.error "boom") =
      (Except.ok { success := false, retry_count := 3, error := some "boom" },
       [1, 2]) := by
  constructor
  · have h := (retry_backoff_spec 3
      (fun i => if i < 2 then Except.ok { success := false, error := some "e1" }
                else Except.ok { success := true }) (by decide)).1 2
      (by decide) (by decide) (by decide)
    rw [h]
    rfl
  · have h := (retry_backoff_spec 3 (fun _ => Except.error "boom")
      (by decide)).2 (by decide) (by decide)
    rw [h]
    rfl

/-- C1 — counterexample to the claim as stated.  The claim quantifies over
every configured `max_retries`, but with `max_retries = 5` an action that
fails on every attempt does not make `execute` return
`success=False, retry_count=5`: after the 4th failed attempt the code
reads `self.retry_delays[3]` out of bounds, so the call raises
`IndexError` instead of returning an `ActionResult`. -/
theorem retry_backoff_counterexample :
    (retry_with_backoff 5 (fun _ => Except.error "boom")).1 =
      Except.error () := by
  rfl

/-- Helper for C10: as long as every attempt index at which the loop can
sleep (`attempt < max_retries - 1`) is inside the three-element
`retry_delays` table, the loop never performs an out-of-bounds read. -/
theorem retryGo_returnsResult (action : ActionBehaviour) (maxRetries : Nat)
    (hsafe : ∀ i, i < maxRetries - 1 → i < 3) :
    ∀ fuel attempt retryCount lastError sleeps,
      returnsResult
        (retryGo action maxRetries fuel attempt retryCount lastError sleeps)
        = true := by
  intro fuel
  induction fuel with
  | zero =>
    intro attempt retryCount lastError sleeps
    simp [retryGo, returnsResult]
  | succ f ih =>
    intro attempt retryCount lastError sleeps
    cases hact : action attempt with
    | ok tr =>
      cases h : tr.success with
      | true => simp [retryGo, hact, h, returnsResult]
      | false =>
        simp only [retryGo, hact, h, Bool.false_eq_true, if_false]
        by_cases hlt : attempt < maxRetries - 1
        · rw [if_pos hlt, retry_delays_getElem attempt (hsafe attempt hlt)]
          exact ih (attempt + 1) (retryCount + 1) tr.error (sleeps ++ [2 ^ attempt])
        · rw [if_neg hlt]
          exact ih (attempt + 1) (retryCount + 1) tr.error sleeps
    | error e =>
      simp only [retryGo, hact]
      by_cases hlt : attempt < maxRetries - 1
      · rw [if_pos hlt, retry_delays_getElem attempt (hsafe attempt hlt)]
        exact ih (attempt + 1) (retryCount + 1) (some e) (sleeps ++ [2 ^ attempt])
      · rw [if_neg hlt]
        exact ih (attempt + 1) (retryCount + 1) (some e) sleeps

/-- Helper for C10: once the loop reaches a failing attempt 3 while at
least one later attempt remains (`3 < max_retries - 1`), the read
`retry_delays[3]` is out of bounds; starting from any attempt ≤ 3 with
all attempts up to 3 failing, the loop ends in that error. -/
theorem retryGo_oob (action : ActionBehaviour) (maxRetries : Nat)
    (hm : 3 < maxRetries - 1)
    (hfail : ∀ j, j < 4 → failsAt action j = true) :
    ∀ fuel attempt retryCount lastError sleeps,
      attempt ≤ 3 → 3 - attempt < fuel →
      (retryGo action maxRetries fuel attempt retryCount lastError sleeps).1 =
        Except.error () := by
  intro fuel
  induction fuel with
  | zero =>
    intro attempt retryCount lastError sleeps _ hfuel
    omega
  | succ f ih =>
    intro attempt retryCount lastError sleeps hatt hfuel
    have hfa : failsAt action attempt = true := hfail attempt (by omega)
    have hlt : attempt < maxRetries - 1 := by omega
    by_cases h3 : attempt < 3
    · have hidx : retry_delays[attempt]? = some (2 ^ attempt) :=
        retry_delays_getElem attempt h3
      cases hact : action attempt with
      | ok tr =>
        simp only [failsAt, hact, Bool.not_eq_true'] at hfa
        simp only [retryGo, hact, hfa, Bool.false_eq_true, if_false,
          if_pos hlt, hidx]
        exact ih (attempt + 1) (retryCount + 1) tr.error (sleeps ++ [2 ^ attempt])
          (by omega) (by omega)
      | error e =>
        simp only [retryGo, hact, if_pos hlt, hidx]
        exact ih (attempt + 1) (retryCount + 1) (some e) (sleeps ++ [2 ^ attempt])
          (by omega) (by omega)
    · have hat3 : attempt = 3 := by omega
      subst hat3
      have hidx : retry_delays[(3 : Nat)]? = none := rfl
      cases hact : action 3 with
      | ok tr =>
        simp only [failsAt, hact, Bool.not_eq_true'] at hfa
        simp only [retryGo, hact, hfa, Bool.false_eq_true, if_false,
          if_pos hlt, hidx]
      | error e =>
        simp only [retryGo, hact, if_pos hlt, hidx]

/-- C10 — amended.  The backoff delay is read from the fixed table
`[1, 2, 4]` indexed by attempt number: for `max_retries ≤ 3` (indeed ≤ 4)
every action yields an `ActionResult` with no out-of-bounds access, while
for `max_retries ≥ 5` — not ≥ 4 as the claim states — an action failing
on the first four attempts reaches the out-of-bounds read
`retry_delays[3]` (modelled as `Except.error ()`).  With `max_retries = 4`
the fourth attempt is the last, so no sleep (hence no table access)
follows it. -/
theorem retry_delays_bounds (m : Nat) (action : ActionBehaviour) :
    (m ≤ 3 → returnsResult (retry_with_backoff m action) = true)
    ∧ (5 ≤ m → (∀ j, j < 4 → failsAt action j = true) →
        (retry_with_backoff m action).1 = Except.error ()) := by
  constructor
  · intro hm
    exact retryGo_returnsResult action m (by omega) m 0 0 none []
  · intro hm hfail
    exact retryGo_oob action m (by omega) hfail m 0 0 none [] (by omega) (by omega)

/-- Witness for `retry_delays_bounds`: with the default `max_retries = 3`
an always-raising action still yields an `ActionResult`, and with
`max_retries = 5` it hits the out-of-bounds table read. -/
theorem retry_delays_bounds_witness :
    returnsResult (retry_with_backoff 3 (fun _ => Except.error "x")) = true ∧
    (retry_with_backoff 5 (fun _ => Except.error "x")).1 = Except.error () := by
  refine ⟨(retry_delays_bounds 3 (fun _ => Except.error "x")).1 (by decide), ?_⟩
  exact (retry_delays_bounds 5 (fun _ => Except.error "x")).2 (by decide) (by decide)

/-- C10 — counterexample to the claim as stated.  The claim says that for
`max_retries ≥ 4` an action failing on the first four attempts reaches an
out-of-bounds table access; but with `max_retries = 4` the fourth attempt
is the final one (`attempt < max_retries - 1` is false at index 3), so no
sleep is attempted after it and the call returns a normal
`ActionResult {success: false, retry_count: 4}`. -/
theorem retry_delays_bounds_counterexample :
    retry_with_backoff 4 (fun _ => Except.error "x") =
      (Except.ok { success := false, retry_count := 4, error := some "x" },
       [1, 2, 4]) := by
  rfl

/-- Modelled from the spec: `Subtask` — id, description, status, tool
name/args, optional result and error (`src/models.py` is not in the
provided sources; shape per §3 of the spec and `tests/unit/test_models.py`;
the wall-clock `timestamp` field, which no claim observes, is not
modelled). -/
structure Subtask where
  id : String
  description : String
  status : String
  tool_name : String := ""
  tool_args : List (String × String) := []
  result : Option String := none
  error : Option String := none
deriving DecidableEq

/-- Modelled from the spec: `StatusUpdate` — session id, optional current
subtask snapshot, overall status, message, optional window directive
(`src/models.py` is not in the provided sources; shape per §3 of the spec
and `tests/unit/test_models.py`; `overall_status` is a required `str`,
`window_state` defaults to `None`). -/
structure StatusUpdate where
  session_id : String
  subtask : Option Subtask := none
  overall_status : String
  message : String
  window_state : Option String := none
deriving DecidableEq

/-- Modelled from the spec: `ExecutionSession` — id, instruction, status,
subtask list and the three timestamps (`src/models.py` is not in the
provided sources; shape per §3 of the spec and
`tests/unit/test_session_manager.py`). -/
structure ExecutionSession where
  session_id : String
  instruction : String
  status : String
  subtasks : List Subtask
  created_at : Int
  updated_at : Int
  completed_at : Option Int := none
deriving DecidableEq

/-- `SessionUpdate` from session_manager.py: optional status, optional
subtask, optional completion time. -/
structure SessionUpdate where
  status : Option String := none
  subtask : Option Subtask := none
  completed_at : Option Int := none
deriving DecidableEq

/-- The `self._sessions` dict of `SessionManager`, as an association list
in insertion order. -/
def SessionStore : Type := List (String × ExecutionSession)

/-- `self._sessions.get(session_id)`. -/
def lookupSession (sessions : SessionStore) (sid : String) :
    Option ExecutionSession :=
  (sessions.find? fun p => p.1 = sid).map Prod.snd

/-- In-place mutation of the session object stored under `sid` (Python
mutates the object held by the dict; the key set and order are unchanged). -/
def setSession (sessions : SessionStore) (sid : String)
    (s : ExecutionSession) : SessionStore :=
  sessions.map fun p => if p.1 = sid then (p.1, s) else p

/-- The subtask upsert of `update_session`: scan for the first subtask
with the same id and replace it in place, else append. -/
def upsertSubtask : List Subtask → Subtask → List Subtask
  | [], st => [st]
  | s :: rest, st =>
      if s.id = st.id then st :: rest else s :: upsertSubtask rest st

/-- The `StatusUpdate` branch of `SessionManager.update_session`:
overwrite `status` when `update.overall_status` is truthy, upsert the
attached subtask if any. -/
def applyStatusUpdate (session : ExecutionSession) (u : StatusUpdate) :
    ExecutionSession :=
  let s1 := if u.overall_status ≠ "" then
              { session with status := u.overall_status }
            else session
  match u.subtask with
  | some st => { s1 with subtasks := upsertSubtask s1.subtasks st }
  | none => s1

/-- The `SessionUpdate` branch of `SessionManager.update_session`. -/
def applySessionUpdate (session : ExecutionSession) (u : SessionUpdate) :
    ExecutionSession :=
  let s1 := match u.status with
            | some st => if st ≠ "" then { session with status := st } else session
            | none => session
  let s2 := match u.subtask with
            | some st => { s1 with subtasks := upsertSubtask s1.subtasks st }
            | none => s1
  match u.completed_at with
  | some c => { s2 with completed_at := some c }
  | none => s2

/-- `SessionManager.update_session(session_id, update)` at wall-clock
instant `now`: returns the Python `bool` result and the new store.  An
unknown id returns `False` untouched; otherwise the update (if any) is
applied and `updated_at` is always refreshed. -/
def update_session (now : Int) (sessions : SessionStore) (sid : String)
    (update : Option (StatusUpdate ⊕ SessionUpdate)) :
    Bool × SessionStore :=
  match lookupSession sessions sid with
  | none => (false, sessions)
  | some session =>
    match update with
    | none => (true, setSession sessions sid { session with updated_at := now })
    | some (Sum.inl u) =>
        (true, setSession sessions sid
          { applyStatusUpdate session u with updated_at := now })
    | some (Sum.inr u) =>
        (true, setSession sessions sid
          { applySessionUpdate session u with updated_at := now })

/-- `SessionManager.cancel_session(session_id)` at wall-clock instant
`now`: only `pending`/`in_progress` sessions transition to `cancelled`
(with both `updated_at` and `completed_at` stamped); anything else
returns `False` with the store untouched. -/
def cancel_session (now : Int) (sessions : SessionStore) (sid : String) :
    Bool × SessionStore :=
  match lookupSession sessions sid with
  | none => (false, sessions)
  | some s =>
    if s.status = "pending" ∨ s.status = "in_progress" then
      (true, setSession sessions sid
        { s with status := "cancelled", updated_at := now,
                 completed_at := some now })
    else (false, sessions)

/-- A session status is terminal. -/
def isTerminalStatus (s : String) : Bool :=
  s = "completed" || s = "failed" || s = "cancelled"

theorem lookupSession_setSession (sessions : SessionStore) (sid : String)
    (s₀ s : ExecutionSession) (h : lookupSession sessions sid = some s₀) :
    lookupSession (setSession sessions sid s) sid = some s := by
  induction sessions with
  | nil => simp [lookupSession] at h
  | cons p rest ih =>
    unfold lookupSession at h
    unfold lookupSession setSession at ih ⊢
    by_cases hp : p.1 = sid
    · rw [List.map_cons, if_pos hp]
      rw [List.find?_cons_of_pos _ (by simp [hp])]
      rfl
    · rw [List.find?_cons_of_neg _ (by simp [hp])] at h
      rw [List.map_cons, if_neg hp, List.find?_cons_of_neg _ (by simp [hp])]
      exact ih h

theorem applyStatusUpdate_status (s : ExecutionSession) (u : StatusUpdate)
    (h : u.overall_status ≠ "") :
    (applyStatusUpdate s u).status = u.overall_status := by
  unfold applyStatusUpdate
  cases u.subtask <;> simp [h]

theorem applySessionUpdate_status (s : ExecutionSession) (u : SessionUpdate)
    (st : String) (hst : u.status = some st) (h : st ≠ "") :
    (applySessionUpdate s u).status = st := by
  unfold applySessionUpdate
  rw [hst]
  cases u.subtask <;> cases u.completed_at <;> simp [h]

/-- C5 — confirmed.  `cancel_session(id)` returns `True` iff the session
exists with status `pending` or `in_progress`; in that case the session
becomes `cancelled` with `updated_at` and `completed_at` stamped; on a
`False` result (unknown id or any other status) the store is returned
untouched. -/
theorem cancel_session_spec (now : Int) (sessions : SessionStore)
    (sid : String) :
    ((cancel_session now sessions sid).1 = true ↔
       ∃ s, lookupSession sessions sid = some s ∧
         (s.status = "pending" ∨ s.status = "in_progress"))
    ∧ (∀ s, lookupSession sessions sid = some s →
        (s.status = "pending" ∨ s.status = "in_progress") →
        lookupSession (cancel_session now sessions sid).2 sid =
          some { s with status := "cancelled", updated_at := now,
                        completed_at := some now })
    ∧ ((cancel_session now sessions sid).1 = false →
        (cancel_session now sessions sid).2 = sessions) := by
  refine ⟨⟨?_, ?_⟩, ?_, ?_⟩
  · intro h
    cases hl : lookupSession sessions sid with
    | none => simp only [cancel_session, hl] at h; simp at h
    | some s =>
      by_cases hs : s.status = "pending" ∨ s.status = "in_progress"
      · exact ⟨s, rfl, hs⟩
      · simp only [cancel_session, hl, if_neg hs] at h; simp at h
  · rintro ⟨s, hl, hs⟩
    simp only [cancel_session, hl, if_pos hs]
  · intro s hl hs
    simp only [cancel_session, hl, if_pos hs]
    exact lookupSession_setSession sessions sid s _ hl
  · intro h
    cases hl : lookupSession sessions sid with
    | none => simp only [cancel_session, hl]
    | some s =>
      by_cases hs : s.status = "pending" ∨ s.status = "in_progress"
      · simp only [cancel_session, hl, if_pos hs] at h; simp at h
      · simp only [cancel_session, hl, if_neg hs]

/-- A pending session used by the witnesses. -/
def sessA : ExecutionSession :=
  { session_id := "a", instruction := "open notepad", status := "pending",
    subtasks := [], created_at := 0, updated_at := 0 }

/-- A completed session used by the witnesses and counterexamples. -/
def sessB : ExecutionSession :=
  { session_id := "b", instruction := "open excel", status := "completed",
    subtasks := [], created_at := 0, updated_at := 1, completed_at := some 1 }

/-- Witness for `cancel_session_spec`: cancelling a pending session in a
concrete two-session store marks it cancelled with a completion stamp,
and cancelling the completed one returns `False` leaving the store as it
was. -/
theorem cancel_session_spec_witness :
    lookupSession (cancel_session 7 [("a", sessA), ("b", sessB)] "a").2 "a" =
      some { sessA with status := "cancelled", updated_at := 7,
                        completed_at := some 7 } ∧
    (cancel_session 7 [("a", sessA), ("b", sessB)] "b").1 = false ∧
    (cancel_session 7 [("a", sessA), ("b", sessB)] "b").2 =
      [("a", sessA), ("b", sessB)] := by
  refine ⟨(cancel_session_spec 7 [("a", sessA), ("b", sessB)] "a").2.1 sessA
    (by decide) (by decide), by decide,
    (cancel_session_spec 7 [("a", sessA), ("b", sessB)] "b").2.2 (by decide)⟩

/-- C3 — amended.  Once a session is terminal, `cancel_session` indeed
leaves it unchanged and returns `False`; but `update_session` performs no
terminal-status check at all: it overwrites the status from any
`StatusUpdate`/`SessionUpdate` carrying a truthy status, upserts the
attached subtask, and always refreshes `updated_at` — terminal sessions
are mutated like any other. -/
theorem session_terminal_spec (now : Int) (sessions : SessionStore)
    (sid : String) (s : ExecutionSession)
    (hl : lookupSession sessions sid = some s)
    (hterm : isTerminalStatus s.status = true) :
    cancel_session now sessions sid = (false, sessions)
    ∧ (∀ u : StatusUpdate, u.overall_status ≠ "" →
        ∃ s', lookupSession
            (update_session now sessions sid (some (Sum.inl u))).2 sid =
            some s' ∧
          s'.status = u.overall_status ∧ s'.updated_at = now)
    ∧ (∀ u : SessionUpdate, ∀ st, u.status = some st → st ≠ "" →
        ∃ s', lookupSession
            (update_session now sessions sid (some (Sum.inr u))).2 sid =
            some s' ∧
          s'.status = st ∧ s'.updated_at = now) := by
  have hs : ¬ (s.status = "pending" ∨ s.status = "in_progress") := by
    intro hc
    rcases hc with hc | hc <;> rw [hc] at hterm <;> exact absurd hterm (by decide)
  refine ⟨?_, ?_, ?_⟩
  · simp only [cancel_session, hl, if_neg hs]
  · intro u hu
    refine ⟨{ applyStatusUpdate s u with updated_at := now }, ?_, ?_, rfl⟩
    · simp only [update_session, hl]
      exact lookupSession_setSession sessions sid s _ hl
    · exact applyStatusUpdate_status s u hu
  · intro u st hst hu
    refine ⟨{ applySessionUpdate s u with updated_at := now }, ?_, ?_, rfl⟩
    · simp only [update_session, hl]
      exact lookupSession_setSession sessions sid s _ hl
    · exact applySessionUpdate_status s u st hst hu

/-- Witness for `session_terminal_spec`: on a concrete completed session,
cancel is a no-op returning `False`, while an `in_progress` status update
really does flip the stored status. -/
theorem session_terminal_spec_witness :
    cancel_session 9 [("b", sessB)] "b" = (false, [("b", sessB)]) ∧
    ∃ s', lookupSession (update_session 9 [("b", sessB)] "b"
        (some (Sum.inl { session_id := "b", overall_status := "in_progress",
                         message := "m" }))).2 "b" = some s' ∧
      s'.status = "in_progress" ∧ s'.updated_at = 9 := by
  refine ⟨(session_terminal_spec 9 [("b", sessB)] "b" sessB (by decide)
      (by decide)).1,
    (session_terminal_spec 9 [("b", sessB)] "b" sessB (by decide)
      (by decide)).2.1 { session_id := "b", overall_status := "in_progress",
                         message := "m" } (by decide)⟩

/-- C3 — counterexample to the claim as stated.  `update_session` never
checks for a terminal status: applying a `StatusUpdate` with
`overall_status="in_progress"` to a `completed` session overwrites its
status and refreshes `updated_at`, so terminal sessions are not immutable
under apply/update. -/
theorem session_terminal_counterexample :
    isTerminalStatus sessB.status = true ∧
    update_session 2 [("b", sessB)] "b"
        (some (Sum.inl { session_id := "b", overall_status := "in_progress",
                         message := "m" })) =
      (true, [("b", { sessB with status := "in_progress", updated_at := 2 })]) := by
  constructor
  · decide
  · rfl

/-- A resource entry in `ResourceManager.resources`: type, id, and the
behaviour of its `cleanup_func` when invoked (`Except.error` = the
callback raises).  The unobserved `data`/`registered_at` fields are kept
as plain payload. -/
structure Resource where
  type : String
  id : String
  cleanup : Except String Unit
  data : Option String := none
  registered_at : Int := 0

/-- `ResourceCleanupError` from exceptions.py as built by `cleanup_all`. -/
structure ResourceCleanupError where
  resource_type : String
  resource_id : String
  details : String
  session_id : String
deriving DecidableEq

/-- `ResourceManager` state: session id and the registration ledger in
registration order. -/
structure ResourceManagerState where
  session_id : String
  resources : List Resource

/-- `ResourceManager.register_resource`: append an entry to the ledger. -/
def register_resource (st : ResourceManagerState) (r : Resource) :
    ResourceManagerState :=
  { st with resources := st.resources ++ [r] }

/-- `ResourceManager.unregister_resource`: remove the first entry with
matching type and id without invoking its cleanup. -/
def unregister_resource (st : ResourceManagerState)
    (rtype rid : String) : Bool × ResourceManagerState :=
  let rec go : List Resource → Option (List Resource)
    | [] => none
    | r :: rest =>
        if r.type = rtype ∧ r.id = rid then some rest
        else (go rest).map fun rest' => r :: rest'
  match go st.resources with
  | some rs => (true, { st with resources := rs })
  | none => (false, st)

/-- The callback of `r` raises when invoked. -/
def cleanupFails (r : Resource) : Bool :=
  match r.cleanup with
  | Except.ok _ => false
  | Except.error _ => true

/-- The `ResourceCleanupError` `cleanup_all` builds for a failed
callback. -/
def cleanupErrOf (sid : String) (r : Resource) : ResourceCleanupError :=
  { resource_type := r.type, resource_id := r.id,
    details := match r.cleanup with | Except.error e => e | Except.ok _ => "",
    session_id := sid }

/-- The `for resource in reversed(self.resources)` loop of
`ResourceManager.cleanup_all`, run on an already-reversed list: invoke
each callback, swallow its fault, and collect a `ResourceCleanupError`
for it only when `suppress_errors` is false.  Returns the invocation
trace (type, id) in order and the collected errors. -/
def cleanupLoop (sid : String) (suppress : Bool) :
    List Resource → List (String × String) × List ResourceCleanupError
  | [] => ([], [])
  | r :: rest =>
      let acc := cleanupLoop sid suppress rest
      match r.cleanup with
      | Except.ok _ => ((r.type, r.id) :: acc.1, acc.2)
      | Except.error _ =>
          ((r.type, r.id) :: acc.1,
           if suppress then acc.2 else cleanupErrOf sid r :: acc.2)

/-- `ResourceManager.cleanup_all(suppress_errors)`: run the loop over the
reversed ledger, clear the ledger, then `raise errors[0]` if errors were
collected and `suppress_errors` is false.  Returns (invocation trace,
new state, raised error if any). -/
def cleanup_all (suppress : Bool) (st : ResourceManagerState) :
    List (String × String) × ResourceManagerState ×
      Option ResourceCleanupError :=
  let run := cleanupLoop st.session_id suppress st.resources.reverse
  (run.1, { st with resources := [] },
   if suppress then none else run.2.head?)

theorem cleanupLoop_spec (sid : String) (suppress : Bool)
    (rs : List Resource) :
    cleanupLoop sid suppress rs =
      (rs.map fun r => (r.type, r.id),
       if suppress then []
       else (rs.filter cleanupFails).map (cleanupErrOf sid)) := by
  induction rs with
  | nil => cases suppress <;> simp [cleanupLoop]
  | cons r rest ih =>
    cases hc : r.cleanup with
    | ok u =>
      have hf : cleanupFails r = false := by simp [cleanupFails, hc]
      cases suppress <;> simp [cleanupLoop, hc, ih, List.filter_cons, hf]
    | error e =>
      have hf : cleanupFails r = true := by simp [cleanupFails, hc]
      cases suppress <;> simp [cleanupLoop, hc, ih, List.filter_cons, hf]

/-- C8 — confirmed.  `cleanup_all` invokes every registered callback
exactly once, in reverse registration order (the invocation trace is
exactly the reversed ledger), clears the ledger, and, when
`suppress_errors` is false and at least one callback faults, re-raises
the first fault in invocation order — only after every callback has been
attempted (the trace is the full reversed ledger regardless of faults). -/
theorem cleanup_all_spec (suppress : Bool) (st : ResourceManagerState) :
    (cleanup_all suppress st).1 =
      st.resources.reverse.map (fun r => (r.type, r.id))
    ∧ (cleanup_all suppress st).2.1 = { st with resources := [] }
    ∧ (suppress = false →
        (cleanup_all suppress st).2.2 =
          ((st.resources.reverse.filter cleanupFails).head?).map
            (cleanupErrOf st.session_id)) := by
  refine ⟨?_, rfl, ?_⟩
  · simp [cleanup_all, cleanupLoop_spec]
  · intro hs
    subst hs
    simp [cleanup_all, cleanupLoop_spec, List.head?_map]

/-- Witness for `cleanup_all_spec`: a concrete three-entry ledger whose
middle registration faults, cleaned up with `suppress_errors=false`:
all three callbacks run newest-first, the ledger is cleared, and the
fault of the second-registered resource is the one re-raised. -/
theorem cleanup_all_spec_witness :
    (cleanup_all false
        { session_id := "s",
          resources :=
            [{ type := "file", id := "f1", cleanup := Except.ok () },
             { type := "process", id := "p1", cleanup := Except.error "io" },
             { type := "websocket", id := "w1", cleanup := Except.ok () }] }).1 =
      [("websocket", "w1"), ("process", "p1"), ("file", "f1")] ∧
    (cleanup_all false
        { session_id := "s",
          resources :=
            [{ type := "file", id := "f1", cleanup := Except.ok () },
             { type := "process", id := "p1", cleanup := Except.error "io" },
             { type := "websocket", id := "w1", cleanup := Except.ok () }] }).2.2 =
      some { resource_type := "process", resource_id := "p1",
             details := "io", session_id := "s" } := by
  constructor
  · have h := (cleanup_all_spec false
      { session_id := "s",
        resources :=
          [{ type := "file", id := "f1", cleanup := Except.ok () },
           { type := "process", id := "p1", cleanup := Except.error "io" },
           { type := "websocket", id := "w1", cleanup := Except.ok () }] }).1
    rw [h]
    rfl
  · have h := (cleanup_all_spec false
      { session_id := "s",
        resources :=
          [{ type := "file", id := "f1", cleanup := Except.ok () },
           { type := "process", id := "p1", cleanup := Except.error "io" },
           { type := "websocket", id := "w1", cleanup := Except.ok () }] }).2.2 rfl
    rw [h]
    rfl

/-- Python `str.lower()` on the characters of a string (structural
implementation so proofs can evaluate it). -/
def pyLower (s : String) : String := String.mk (s.toList.map Char.toLower)

/-- Python `str.strip()`: drop leading and trailing whitespace
(structural implementation so proofs can evaluate it). -/
def pyStrip (s : String) : String :=
  String.mk
    (((s.toList.dropWhile Char.isWhitespace).reverse.dropWhile
      Char.isWhitespace).reverse)

/-- A step of an `ExecutionPlan` as built in main.py:
`{tool_name, tool_args, description}`. -/
structure PlanStep where
  tool_name : String
  tool_args : List (String × String)
  description : String
deriving DecidableEq

/-- Modelled from the spec: `ExecutionPlan` — instruction text, ordered
tool-call list, creation time (`src/models.py` is not in the provided
sources; shape per §3 of the spec and its construction in main.py). -/
structure ExecutionPlan where
  instruction : String
  subtasks : List PlanStep
  created_at : Int
deriving DecidableEq

/-- A `PlanCache` entry: `(ExecutionPlan, embedding, timestamp)`.  Python
float components are modelled as exact rationals. -/
structure CacheEntry where
  plan : ExecutionPlan
  embedding : List ℚ
  timestamp : Int
deriving DecidableEq

/-- `PlanCache` state: `self._cache` (an `OrderedDict`, front = least
recently used) plus the snapshot written by the last `_save_cache`. -/
structure PlanCacheState where
  entries : List (String × CacheEntry)
  saved : List (String × CacheEntry)
deriving DecidableEq

/-- The freshly-initialised empty cache. -/
def emptyCacheState : PlanCacheState := { entries := [], saved := [] }

/-- The n-gram counting dict of `_compute_embedding`
(`ngrams[ngram] = ngrams.get(ngram, 0) + 1`, insertion-ordered). -/
def bumpCount : List (String × Nat) → String → List (String × Nat)
  | [], g => [(g, 1)]
  | (k, c) :: rest, g =>
      if k = g then (k, c + 1) :: rest else (k, c) :: bumpCount rest g

/-- The trigram list of `_compute_embedding`:
`text[i:i+3] for i in range(len(text) - 3 + 1)`. -/
def ngramsOf (t : String) : List String :=
  (List.range (t.length + 1 - 3)).map fun i =>
    String.mk ((t.toList.drop i).take 3)

/-- `PlanCache._compute_embedding(text)`: lowercase and strip, count
character trigrams, hash each trigram into one of 128 dimensions, and
L2-normalise when the magnitude is positive.  The two Python externals
are parameters: `hg` models the builtin `hash` on strings and `sq`
models float `** 0.5` (exact on the values the claims evaluate). -/
def compute_embedding (sq : ℚ → ℚ) (hg : String → Nat) (text : String) :
    List ℚ :=
  let t := pyStrip (pyLower text)
  let counts := (ngramsOf t).foldl bumpCount []
  let emb := counts.foldl
    (fun (v : List ℚ) gc =>
      let idx := hg gc.1 % 128
      v.set idx (v.getD idx 0 + (gc.2 : ℚ)))
    (List.replicate 128 (0 : ℚ))
  let magnitude := sq (emb.foldl (fun a x => a + x * x) 0)
  if magnitude > 0 then emb.map (fun x => x / magnitude) else emb

/-- `PlanCache.compute_similarity(embedding1, embedding2)` on embedding
vectors (the string-coercion convenience branch, unreachable from
`get_cached_plan`, is not modelled): 0 for empty or length-mismatched
inputs or a zero magnitude, else `dot/(‖a‖‖b‖)` clamped to `[0, 1]`. -/
def compute_similarity (sq : ℚ → ℚ) (e1 e2 : List ℚ) : ℚ :=
  if e1 = [] ∨ e2 = [] then 0
  else if e1.length ≠ e2.length then 0
  else
    let dot := (e1.zip e2).foldl (fun a p => a + p.1 * p.2) 0
    let m1 := sq (e1.foldl (fun a x => a + x * x) 0)
    let m2 := sq (e2.foldl (fun a x => a + x * x) 0)
    if m1 = 0 ∨ m2 = 0 then 0
    else max 0 (min 1 (dot / (m1 * m2)))

/-- `PlanCache._cleanup_expired()` at instant `now` with time-to-live
`ttl`: drop every entry with `now - timestamp > ttl`; persist a snapshot
only if something was dropped. -/
def cleanup_expired (now ttl : Int) (st : PlanCacheState) : PlanCacheState :=
  let kept := st.entries.filter fun p => !decide (now - p.2.timestamp > ttl)
  let anyExpired := st.entries.any fun p => decide (now - p.2.timestamp > ttl)
  { entries := kept, saved := if anyExpired then kept else st.saved }

/-- `self._cache[cache_key] = value` on an `OrderedDict`: replace in
place if the key is present, else append at the end. -/
def dictSet : List (String × CacheEntry) → String → CacheEntry →
    List (String × CacheEntry)
  | [], k, v => [(k, v)]
  | p :: rest, k, v =>
      if p.1 = k then (k, v) :: rest else p :: dictSet rest k v

/-- `self._cache.move_to_end(key)`: move the entry with the given key to
the most-recently-used end (identity if absent — the source only calls
it on keys known to be present). -/
def moveToEnd : List (String × CacheEntry) → String →
    List (String × CacheEntry)
  | [], _ => []
  | p :: rest, k =>
      if p.1 = k then rest ++ [p] else p :: moveToEnd rest k

/-- `PlanCache.store_plan(instruction, plan)` for a cache built with
`max_size = maxSize`: no-op on blank instructions; otherwise insert or
overwrite under the content-hash key (`hashFn` models sha256 hexdigest),
mark most-recently-used, pop the least-recently-used (front) entry if
the count now exceeds `maxSize`, and persist a snapshot. -/
def store_plan (sq : ℚ → ℚ) (hg : String → Nat) (hashFn : String → String)
    (maxSize : Nat) (now : Int) (st : PlanCacheState)
    (instruction : String) (plan : ExecutionPlan) : PlanCacheState :=
  if instruction = "" ∨ pyStrip instruction = "" then st
  else
    let embedding := compute_embedding sq hg instruction
    let key := hashFn instruction
    let e1 := dictSet st.entries key ⟨plan, embedding, now⟩
    let e2 := moveToEnd e1 key
    let e3 := if e2.length > maxSize then e2.tail else e2
    { entries := e3, saved := e3 }

/-- `PlanCache.get_cached_plan(instruction)` for a cache with the given
`ttl` and similarity `threshold`: purge expired entries first, return
`None` for blank instructions, else scan all entries for the strictly
best similarity to the query embedding and, when it reaches the
threshold (and the best key is truthy), touch that entry and return its
plan. -/
def get_cached_plan (sq : ℚ → ℚ) (hg : String → Nat) (ttl : Int)
    (threshold : ℚ) (now : Int) (st : PlanCacheState)
    (instruction : String) : Option ExecutionPlan × PlanCacheState :=
  let st1 := cleanup_expired now ttl st
  if instruction = "" ∨ pyStrip instruction = "" then (none, st1)
  else
    let q := compute_embedding sq hg instruction
    let best := st1.entries.foldl
      (fun (acc : Option String × ℚ) p =>
        let s := compute_similarity sq q p.2.embedding
        if s > acc.2 then (some p.1, s) else acc)
      (none, 0)
    match best.1 with
    | some k =>
        if best.2 ≥ threshold ∧ k ≠ "" then
          let e2 := moveToEnd st1.entries k
          ((e2.find? fun p => p.1 = k).map fun p => p.2.plan,
           { st1 with entries := e2 })
        else (none, st1)
    | none => (none, st1)

/-- Fold a sequence of `store_plan` calls (used to state the LRU claim). -/
def storeMany (sq : ℚ → ℚ) (hg : String → Nat) (hashFn : String → String)
    (maxSize : Nat) (now : Int) (st : PlanCacheState)
    (items : List (String × ExecutionPlan)) : PlanCacheState :=
  items.foldl (fun s p => store_plan sq hg hashFn maxSize now s p.1 p.2) st

theorem moveToEnd_length (l : List (String × CacheEntry)) (k : String) :
    (moveToEnd l k).length = l.length := by
  induction l with
  | nil => rfl
  | cons p rest ih =>
    by_cases hp : p.1 = k <;> simp [moveToEnd, hp, ih]

theorem dictSet_length_le (l : List (String × CacheEntry)) (k : String)
    (v : CacheEntry) : (dictSet l k v).length ≤ l.length + 1 := by
  induction l with
  | nil => simp [dictSet]
  | cons p rest ih =>
    by_cases hp : p.1 = k
    · simp [dictSet, hp]
    · simp only [dictSet, if_neg hp, List.length_cons]
      omega

theorem dictSet_absent (l : List (String × CacheEntry)) (k : String)
    (v : CacheEntry) (h : ∀ p ∈ l, p.1 ≠ k) :
    dictSet l k v = l ++ [(k, v)] := by
  induction l with
  | nil => rfl
  | cons p rest ih =>
    have hp : ¬ p.1 = k := h p (by simp)
    simp only [dictSet, if_neg hp, List.cons_append, List.cons.injEq, true_and]
    exact ih fun q hq => h q (by simp [hq])

theorem moveToEnd_absent_append (l : List (String × CacheEntry))
    (k : String) (v : CacheEntry) (h : ∀ p ∈ l, p.1 ≠ k) :
    moveToEnd (l ++ [(k, v)]) k = l ++ [(k, v)] := by
  induction l with
  | nil => simp [moveToEnd]
  | cons p rest ih =>
    have hp : ¬ p.1 = k := h p (by simp)
    simp only [List.cons_append, moveToEnd, if_neg hp, List.cons.injEq, true_and]
    exact ih fun q hq => h q (by simp [hq])

theorem store_plan_fresh_keep (sq : ℚ → ℚ) (hg : String → Nat)
    (hashFn : String → String) (maxSize : Nat) (now : Int)
    (st : PlanCacheState) (instruction : String) (plan : ExecutionPlan)
    (hb : ¬ (instruction = "" ∨ pyStrip instruction = ""))
    (habs : ∀ p ∈ st.entries, p.1 ≠ hashFn instruction)
    (hfit : ¬ st.entries.length + 1 > maxSize) :
    (store_plan sq hg hashFn maxSize now st instruction plan).entries =
      st.entries ++ [(hashFn instruction,
        ⟨plan, compute_embedding sq hg instruction, now⟩)] := by
  unfold store_plan
  rw [if_neg hb]
  simp only [dictSet_absent st.entries (hashFn instruction) _ habs,
    moveToEnd_absent_append st.entries (hashFn instruction) _ habs,
    List.length_append, List.length_singleton, gt_iff_lt]
  rw [if_neg (by omega : ¬ maxSize < st.entries.length + 1)]

theorem store_plan_fresh_evict (sq : ℚ → ℚ) (hg : String → Nat)
    (hashFn : String → String) (maxSize : Nat) (now : Int)
    (st : PlanCacheState) (instruction : String) (plan : ExecutionPlan)
    (hb : ¬ (instruction = "" ∨ pyStrip instruction = ""))
    (habs : ∀ p ∈ st.entries, p.1 ≠ hashFn instruction)
    (hfull : st.entries.length + 1 > maxSize) :
    (store_plan sq hg hashFn maxSize now st instruction plan).entries =
      (st.entries ++ [(hashFn instruction,
        (⟨plan, compute_embedding sq hg instruction, now⟩ : CacheEntry))]).tail := by
  unfold store_plan
  rw [if_neg hb]
  simp only [dictSet_absent st.entries (hashFn instruction) _ habs,
    moveToEnd_absent_append st.entries (hashFn instruction) _ habs,
    List.length_append, List.length_singleton, gt_iff_lt]
  rw [if_pos (by omega : maxSize < st.entries.length + 1)]

theorem store_plan_length (sq : ℚ → ℚ) (hg : String → Nat)
    (hashFn : String → String) (maxSize : Nat) (now : Int)
    (st : PlanCacheState) (instruction : String) (plan : ExecutionPlan)
    (h : st.entries.length ≤ maxSize) :
    (store_plan sq hg hashFn maxSize now st instruction plan).entries.length
      ≤ maxSize := by
  unfold store_plan
  by_cases hb : instruction = "" ∨ pyStrip instruction = ""
  · rw [if_pos hb]; exact h
  · rw [if_neg hb]
    have h1 := dictSet_length_le st.entries (hashFn instruction)
      ⟨plan, compute_embedding sq hg instruction, now⟩
    have h2 := moveToEnd_length
      (dictSet st.entries (hashFn instruction)
        ⟨plan, compute_embedding sq hg instruction, now⟩) (hashFn instruction)
    simp only
    split
    · simp only [List.length_tail]
      omega
    · omega

theorem storeMany_length (sq : ℚ → ℚ) (hg : String → Nat)
    (hashFn : String → String) (maxSize : Nat) (now : Int)
    (items : List (String × ExecutionPlan)) :
    ∀ st : PlanCacheState, st.entries.length ≤ maxSize →
      (storeMany sq hg hashFn maxSize now st items).entries.length ≤ maxSize := by
  induction items with
  | nil => intro st h; exact h
  | cons q rest ih =>
    intro st h
    exact ih _ (store_plan_length sq hg hashFn maxSize now st q.1 q.2 h)

theorem storeMany_fill (sq : ℚ → ℚ) (hg : String → Nat)
    (hashFn : String → String) (maxSize : Nat) (now : Int)
    (items : List (String × ExecutionPlan)) :
    ∀ st : PlanCacheState,
      (∀ q ∈ items, ¬ (q.1 = "" ∨ pyStrip q.1 = "")) →
      (items.map fun q => hashFn q.1).Nodup →
      (∀ q ∈ items, ∀ p ∈ st.entries, p.1 ≠ hashFn q.1) →
      st.entries.length + items.length ≤ maxSize →
      (storeMany sq hg hashFn maxSize now st items).entries.map Prod.fst =
        st.entries.map Prod.fst ++ items.map fun q => hashFn q.1 := by
  induction items with
  | nil => intro st _ _ _ _; simp [storeMany]
  | cons q rest ih =>
    intro st hnb hnd habs hlen
    have hb : ¬ (q.1 = "" ∨ pyStrip q.1 = "") := hnb q (by simp)
    have habs0 : ∀ p ∈ st.entries, p.1 ≠ hashFn q.1 :=
      fun p hp => habs q (by simp) p hp
    have hfit : ¬ st.entries.length + 1 > maxSize := by
      simp only [List.length_cons] at hlen
      omega
    have hstep : (store_plan sq hg hashFn maxSize now st q.1 q.2).entries =
        st.entries ++ [(hashFn q.1, ⟨q.2, compute_embedding sq hg q.1, now⟩)] :=
      store_plan_fresh_keep sq hg hashFn maxSize now st q.1 q.2 hb habs0 hfit
    have hrec := ih (store_plan sq hg hashFn maxSize now st q.1 q.2)
      (fun q' hq' => hnb q' (by simp [hq']))
      (by simpa using hnd.of_cons)
      (by
        intro q' hq' p hp
        rw [hstep] at hp
        simp only [List.mem_append, List.mem_singleton] at hp
        rcases hp with hp | hp
        · exact habs q' (by simp [hq']) p hp
        · subst hp
          simp only [List.map_cons, List.nodup_cons] at hnd
          intro hc
          have hc' : hashFn q.1 = hashFn q'.1 := hc
          apply hnd.1
          rw [hc']
          exact List.mem_map_of_mem (fun q => hashFn q.1) hq')
      (by
        rw [hstep]
        simp only [List.length_append, List.length_singleton]
        simp only [List.length_cons] at hlen
        omega)
    have key : storeMany sq hg hashFn maxSize now st (q :: rest) =
        storeMany sq hg hashFn maxSize now
          (store_plan sq hg hashFn maxSize now st q.1 q.2) rest := rfl
    rw [key, hrec, hstep]
    simp [List.map_append]

/-- C7 — amended.  For a cache of capacity `maxSize`: (i) after any
sequence of `store_plan` calls, the entry count never exceeds the
capacity; (ii) storing `maxSize + 1` non-blank instructions with
pairwise-distinct content hashes into an empty cache leaves exactly
`maxSize` entries whose keys are, in order, the hashes of all but the
first instruction — the evicted entry is the least-recently-used
(first-inserted) one, whose key is gone.  A subsequent *similarity*
lookup of the first instruction is, however, not guaranteed to miss: it
can still hit a remaining entry whose embedding is similar enough (see
the counterexample). -/
theorem plan_cache_lru_spec (sq : ℚ → ℚ) (hg : String → Nat)
    (hashFn : String → String) (maxSize : Nat) (now : Int) :
    (∀ (st : PlanCacheState) (items : List (String × ExecutionPlan)),
      st.entries.length ≤ maxSize →
      (storeMany sq hg hashFn maxSize now st items).entries.length ≤ maxSize)
    ∧ (∀ q0 : String × ExecutionPlan,
        ∀ rest : List (String × ExecutionPlan),
        (∀ q ∈ q0 :: rest, ¬ (q.1 = "" ∨ pyStrip q.1 = "")) →
        ((q0 :: rest).map fun q => hashFn q.1).Nodup →
        (q0 :: rest).length = maxSize + 1 →
        (storeMany sq hg hashFn maxSize now emptyCacheState
            (q0 :: rest)).entries.map Prod.fst =
          rest.map (fun q => hashFn q.1)
        ∧ (storeMany sq hg hashFn maxSize now emptyCacheState
            (q0 :: rest)).entries.length = maxSize
        ∧ hashFn q0.1 ∉
            (storeMany sq hg hashFn maxSize now emptyCacheState
              (q0 :: rest)).entries.map Prod.fst) := by
  constructor
  · intro st items h
    exact storeMany_length sq hg hashFn maxSize now items st h
  · intro q0 rest hnb hnd hlen
    simp only [List.length_cons] at hlen
    have hb0 : ¬ (q0.1 = "" ∨ pyStrip q0.1 = "") := hnb q0 (by simp)
    by_cases hm : maxSize = 0
    · subst hm
      have hrest : rest = [] := by
        cases rest with
        | nil => rfl
        | cons a b => simp at hlen
      subst hrest
      have h0 : (store_plan sq hg hashFn 0 now emptyCacheState
          q0.1 q0.2).entries =
          (emptyCacheState.entries ++ [(hashFn q0.1,
            (⟨q0.2, compute_embedding sq hg q0.1, now⟩ : CacheEntry))]).tail :=
        store_plan_fresh_evict sq hg hashFn 0 now emptyCacheState q0.1 q0.2
          hb0 (by intro p hp; simp [emptyCacheState] at hp) (by simp)
      have hfin : (storeMany sq hg hashFn 0 now emptyCacheState
          [q0]).entries = [] := by
        show (store_plan sq hg hashFn 0 now emptyCacheState q0.1 q0.2).entries = []
        rw [h0]
        simp [emptyCacheState]
      refine ⟨by rw [hfin]; rfl, by rw [hfin]; rfl, by rw [hfin]; simp⟩
    · -- fill the first maxSize items, then the last store evicts the front
      have hrestlen : rest.length = maxSize := by omega
      have hrestne : rest ≠ [] := by
        intro h; rw [h] at hrestlen; simp at hrestlen; omega
      -- split rest = mid ++ [last]
      obtain ⟨mid, last, hsplit⟩ : ∃ mid last, rest = mid ++ [last] :=
        ⟨rest.dropLast, rest.getLast hrestne,
          (List.dropLast_append_getLast hrestne).symm⟩
      subst hsplit
      have hmidlen : (q0 :: mid).length = maxSize := by
        simp only [List.length_append, List.length_singleton] at hrestlen
        simp only [List.length_cons]
        omega
      have hfillhyp : ∀ q ∈ q0 :: mid, ¬ (q.1 = "" ∨ pyStrip q.1 = "") := by
        intro q hq
        apply hnb
        rcases List.mem_cons.mp hq with h | h
        · simp [h]
        · exact List.mem_cons_of_mem _ (List.mem_append_left _ h)
      have hndfull := hnd
      have hndmid : ((q0 :: mid).map fun q => hashFn q.1).Nodup := by
        have : (q0 :: (mid ++ [last])).map (fun q => hashFn q.1) =
            ((q0 :: mid).map fun q => hashFn q.1) ++ [hashFn last.1] := by
          simp
        rw [this] at hndfull
        exact hndfull.of_append_left
      have hfill := storeMany_fill sq hg hashFn maxSize now (q0 :: mid)
        emptyCacheState hfillhyp hndmid
        (by intro q hq p hp; simp [emptyCacheState] at hp)
        (by simp only [emptyCacheState, List.length_nil, Nat.zero_add]; omega)
      have hfilllen : (storeMany sq hg hashFn maxSize now emptyCacheState
          (q0 :: mid)).entries.length = maxSize := by
        have h' := congrArg List.length hfill
        simp only [List.length_map, List.length_append, emptyCacheState,
          List.map_nil, List.nil_append, List.length_cons] at h'
        simp only [List.length_append, List.length_singleton] at hrestlen
        rw [hrestlen] at h'
        simpa [emptyCacheState] using h'
      have hblast : ¬ (last.1 = "" ∨ pyStrip last.1 = "") :=
        hnb last (by simp)
      have habslast : ∀ p ∈ (storeMany sq hg hashFn maxSize now emptyCacheState
          (q0 :: mid)).entries, p.1 ≠ hashFn last.1 := by
        intro p hp hc
        have hkeys : p.1 ∈ (storeMany sq hg hashFn maxSize now emptyCacheState
            (q0 :: mid)).entries.map Prod.fst := List.mem_map_of_mem _ hp
        rw [hfill, hc] at hkeys
        simp only [emptyCacheState, List.map_nil, List.nil_append] at hkeys
        have : (q0 :: (mid ++ [last])).map (fun q => hashFn q.1) =
            ((q0 :: mid).map fun q => hashFn q.1) ++ [hashFn last.1] := by
          simp
        rw [this] at hndfull
        have hnotmem := (List.nodup_append.mp hndfull).2.2
        exact hnotmem hkeys (by simp)
      have hev := store_plan_fresh_evict sq hg hashFn maxSize now
        (storeMany sq hg hashFn maxSize now emptyCacheState (q0 :: mid))
        last.1 last.2 hblast habslast (by omega)
      have hkey : storeMany sq hg hashFn maxSize now emptyCacheState
          (q0 :: (mid ++ [last])) =
          store_plan sq hg hashFn maxSize now
            (storeMany sq hg hashFn maxSize now emptyCacheState (q0 :: mid))
            last.1 last.2 := by
        show List.foldl _ _ (q0 :: (mid ++ [last])) = _
        rw [show q0 :: (mid ++ [last]) = (q0 :: mid) ++ [last] by simp,
          List.foldl_append]
        rfl
      -- keys of the final state
      have hkeysfin : (storeMany sq hg hashFn maxSize now emptyCacheState
          (q0 :: (mid ++ [last]))).entries.map Prod.fst =
          (mid ++ [last]).map fun q => hashFn q.1 := by
        rw [hkey, hev]
        cases hE : (storeMany sq hg hashFn maxSize now emptyCacheState
            (q0 :: mid)).entries with
        | nil =>
          rw [hE] at hfill
          simp [emptyCacheState] at hfill
        | cons e0 erest =>
          rw [hE] at hfill
          simp only [emptyCacheState, List.map_nil, List.nil_append,
            List.map_cons, List.cons.injEq] at hfill
          simp only [List.cons_append, List.tail_cons, List.map_append,
            List.map_cons, List.map_nil, hfill.2]
      refine ⟨hkeysfin, ?_, ?_⟩
      · have := congrArg List.length hkeysfin
        simp only [List.length_map] at this
        rw [this]
        simpa using hrestlen
      · rw [hkeysfin]
        have : (q0 :: (mid ++ [last])).map (fun q => hashFn q.1) =
            hashFn q0.1 :: ((mid ++ [last]).map fun q => hashFn q.1) := by
          simp
        rw [this] at hndfull
        exact (List.nodup_cons.mp hndfull).1

/-- A plan literal used by the cache witnesses. -/
def planA : ExecutionPlan :=
  { instruction := "abc", subtasks := [], created_at := 0 }

/-- A second plan literal used by the cache witnesses. -/
def planB : ExecutionPlan :=
  { instruction := "ABC", subtasks := [], created_at := 0 }

/-- Witness for `plan_cache_lru_spec`: capacity 1, storing the two
distinct-hash instructions "a" then "b" leaves exactly the entry keyed
"b" — the first-inserted entry was evicted. -/
theorem plan_cache_lru_spec_witness :
    (storeMany (fun x => x) (fun _ => 0) (fun s => s) 1 0 emptyCacheState
        [("a", planA), ("b", planB)]).entries.map Prod.fst = ["b"] ∧
    (storeMany (fun x => x) (fun _ => 0) (fun s => s) 1 0 emptyCacheState
        [("a", planA), ("b", planB)]).entries.length = 1 := by
  have h := (plan_cache_lru_spec (fun x => x) (fun _ => 0) (fun s => s) 1 0).2
    ("a", planA) [("b", planB)] (by decide) (by decide) (by decide)
  exact ⟨h.1, h.2.1⟩

theorem cleanup_expired_noop (now ttl : Int) (st : PlanCacheState)
    (h : ∀ p ∈ st.entries, ¬ now - p.2.timestamp > ttl) :
    cleanup_expired now ttl st = st := by
  unfold cleanup_expired
  have hf : (st.entries.filter fun p => !decide (now - p.2.timestamp > ttl)) =
      st.entries := by
    apply List.filter_eq_self.mpr
    intro p hp
    simpa using h p hp
  have ha : (st.entries.any fun p => decide (now - p.2.timestamp > ttl)) =
      false := by
    rw [List.any_eq_false]
    intro p hp
    simpa using h p hp
  rw [hf, ha]
  simp

/-- The unit embedding vector shared by "abc" and "ABC" in the
counterexample (count 1 in dimension 0, magnitude 1). -/
def unitVec : List ℚ := 1 :: List.replicate 127 0

theorem foldl_add_sq_replicate (n : Nat) (c : ℚ) :
    List.foldl (fun a x => a + x * x) c (List.replicate n 0) = c := by
  induction n generalizing c with
  | zero => rfl
  | succ m ih => simp [List.replicate_succ, ih]

theorem foldl_add_mul_replicate (n : Nat) (c : ℚ) :
    List.foldl (fun a p => a + p.1 * p.2) c
      (List.replicate n ((0 : ℚ), (0 : ℚ))) = c := by
  induction n generalizing c with
  | zero => rfl
  | succ m ih =>
    rw [List.replicate_succ, List.foldl_cons]
    have h : c + ((0 : ℚ), (0 : ℚ)).1 * ((0 : ℚ), (0 : ℚ)).2 = c := by
      norm_num
    rw [h]
    exact ih c

theorem zip_replicate_self (n : Nat) (a b : ℚ) :
    List.zip (List.replicate n a) (List.replicate n b) =
      List.replicate n (a, b) := by
  induction n with
  | zero => rfl
  | succ m ih => simp [List.replicate_succ, ih]

theorem compute_embedding_abc :
    compute_embedding (fun x => x) (fun _ => 0) "abc" = unitVec := by
  unfold compute_embedding
  have h1 : pyStrip (pyLower "abc") = "abc" := by decide
  have h2 : ngramsOf "abc" = ["abc"] := by decide
  have h3 : (["abc"].foldl bumpCount []) = [("abc", 1)] := by decide
  have h4 : List.replicate 128 (0 : ℚ) = 0 :: List.replicate 127 0 := rfl
  simp only [h1, h2, h3, List.foldl_cons, List.foldl_nil, h4]
  norm_num [foldl_add_sq_replicate, unitVec]

theorem compute_similarity_unit :
    compute_similarity (fun x => x) unitVec unitVec = 1 := by
  have hne : ¬ (unitVec = [] ∨ unitVec = []) := by simp [unitVec]
  have hlen : ¬ unitVec.length ≠ unitVec.length := by simp
  have hdot : (List.zip unitVec unitVec).foldl (fun a p => a + p.1 * p.2) 0
      = 1 := by
    simp only [unitVec, List.zip_cons_cons, zip_replicate_self,
      List.foldl_cons]
    rw [show (0 : ℚ) + 1 * 1 = 1 by norm_num]
    exact foldl_add_mul_replicate 127 1
  have hmag : List.foldl (fun a x => a + x * x) 0 unitVec = 1 := by
    simp only [unitVec, List.foldl_cons]
    rw [show (0 : ℚ) + 1 * 1 = 1 by norm_num]
    exact foldl_add_sq_replicate 127 1
  unfold compute_similarity
  rw [if_neg hne, if_neg hlen]
  simp only [hdot, hmag]
  norm_num

/-- C7 — counterexample to the "subsequent lookup misses" part of the
claim as stated.  Capacity 1, instructions "abc" and "ABC": distinct
content hashes, so storing both evicts the first entry — yet
`get_cached_plan("abc")` still *hits*, because `_compute_embedding`
lowercases the text, making the embeddings of "abc" and "ABC" identical
(cosine similarity exactly 1 ≥ 0.95), and lookup is by similarity, not
by key.  It returns the surviving plan instead of missing. -/
theorem plan_cache_lru_counterexample :
    (storeMany (fun x => x) (fun _ => 0) (fun s => s) 1 0 emptyCacheState
        [("abc", planA), ("ABC", planB)]).entries.map Prod.fst = ["ABC"] ∧
    (get_cached_plan (fun x => x) (fun _ => 0) 24 (19 / 20 : ℚ) 0
        (storeMany (fun x => x) (fun _ => 0) (fun s => s) 1 0 emptyCacheState
          [("abc", planA), ("ABC", planB)]) "abc").1 = some planB := by
  have hst : storeMany (fun x => x) (fun _ => 0) (fun s => s) 1 0
      emptyCacheState [("abc", planA), ("ABC", planB)] =
      { entries := [("ABC",
          (⟨planB, compute_embedding (fun x => x) (fun _ => 0) "ABC", 0⟩ :
            CacheEntry))],
        saved := [("ABC",
          (⟨planB, compute_embedding (fun x => x) (fun _ => 0) "ABC", 0⟩ :
            CacheEntry))] } := by
    rfl
  have hABC : compute_embedding (fun x => x) (fun _ => 0) "ABC" =
      compute_embedding (fun x => x) (fun _ => 0) "abc" := by
    unfold compute_embedding
    have ht : pyStrip (pyLower "ABC") = pyStrip (pyLower "abc") := by decide
    rw [ht]
  refine ⟨by rw [hst]; rfl, ?_⟩
  rw [hst, hABC, compute_embedding_abc]
  have hcl : cleanup_expired 0 24
      { entries := [("ABC", (⟨planB, unitVec, 0⟩ : CacheEntry))],
        saved := [("ABC", (⟨planB, unitVec, 0⟩ : CacheEntry))] } =
      { entries := [("ABC", (⟨planB, unitVec, 0⟩ : CacheEntry))],
        saved := [("ABC", (⟨planB, unitVec, 0⟩ : CacheEntry))] } := by
    apply cleanup_expired_noop
    intro p hp
    simp only [List.mem_singleton] at hp
    rw [hp]
    norm_num
  have hnb : ¬ ("abc" = "" ∨ pyStrip "abc" = "") := by decide
  simp only [get_cached_plan, hcl, if_neg hnb, compute_embedding_abc,
    List.foldl_cons, List.foldl_nil, compute_similarity_unit]
  norm_num [moveToEnd, List.find?]
  rw [if_neg (by decide : ¬ "ABC" = "")]

/-- C9 — amended.  For a blank (empty or whitespace-only) instruction,
`get_cached_plan` returns no plan and touches neither the entries, their
order, nor the snapshot — *except* that the initial TTL purge still
runs, because `_cleanup_expired()` is called before the blank check: the
result state is exactly `cleanup_expired` of the input, which equals the
input only when no entry is expired at call time. -/
theorem lookup_blank_spec (sq : ℚ → ℚ) (hg : String → Nat) (ttl : Int)
    (threshold : ℚ) (now : Int) (st : PlanCacheState) (instruction : String)
    (hb : instruction = "" ∨ pyStrip instruction = "") :
    get_cached_plan sq hg ttl threshold now st instruction =
      (none, cleanup_expired now ttl st)
    ∧ ((∀ p ∈ st.entries, ¬ now - p.2.timestamp > ttl) →
        get_cached_plan sq hg ttl threshold now st instruction = (none, st)) := by
  have h1 : get_cached_plan sq hg ttl threshold now st instruction =
      (none, cleanup_expired now ttl st) := by
    simp only [get_cached_plan, if_pos hb]
  exact ⟨h1, fun h => by rw [h1, cleanup_expired_noop now ttl st h]⟩

/-- A cache entry that is still fresh at the witness instant. -/
def freshEntry : CacheEntry :=
  { plan := planA, embedding := [], timestamp := 50 }

/-- A cache entry that has outlived the TTL at the counterexample
instant. -/
def staleEntry : CacheEntry :=
  { plan := planA, embedding := [], timestamp := 0 }

/-- Witness for `lookup_blank_spec`: a whitespace-only lookup against a
cache whose single entry is not expired returns no plan and leaves the
state exactly as it was. -/
theorem lookup_blank_spec_witness :
    get_cached_plan (fun x => x) (fun _ => 0) 24 (19 / 20 : ℚ) 60
        { entries := [("k", freshEntry)], saved := [("k", freshEntry)] }
        "   " =
      (none,
       { entries := [("k", freshEntry)], saved := [("k", freshEntry)] }) :=
  (lookup_blank_spec (fun x => x) (fun _ => 0) 24 (19 / 20 : ℚ) 60
    { entries := [("k", freshEntry)], saved := [("k", freshEntry)] }
    "   " (by decide)).2 (by decide)

/-- C9 — counterexample to the claim as stated.  `_cleanup_expired()`
runs *before* the blank check, so a whitespace-only lookup against a
cache holding an expired entry removes that entry and rewrites the
persisted snapshot: the call is not a no-op on the cache. -/
theorem lookup_blank_counterexample :
    (get_cached_plan (fun x => x) (fun _ => 0) 24 (19 / 20 : ℚ) 100
        { entries := [("k", staleEntry)], saved := [("k", staleEntry)] }
        " ").2 = emptyCacheState ∧
    ({ entries := [("k", staleEntry)], saved := [("k", staleEntry)] } :
        PlanCacheState) ≠ emptyCacheState := by
  constructor
  · decide
  · decide

/-- A parsed tool call `{tool, args}` from `_parse_tool_calls`. -/
structure ToolCall where
  tool : String
  args : List (String × String)
deriving DecidableEq

/-- The registered toolbox `self.tool_map`: tool name ↦ its behaviour
(`Except.error` = the tool function raises, `Except.ok` = it returns a
`ToolResult`), or `none` when the name is not registered. -/
def ToolBox : Type :=
  String → Option (List (String × String) → Except String ToolResult)

/-- The per-run multi-app context of `ADKAgentManager`:
`self.active_application` and the `action_count` part of
`self.application_context` (the wall-clock access times, which nothing
reads, are not modelled). -/
structure AgentState where
  activeApp : Option String := none
  appContext : List (String × Nat) := []

/-- `self.application_context[app]["action_count"] += 1` with first-seen
insertion. -/
def bumpApp : List (String × Nat) → String → List (String × Nat)
  | [], a => [(a, 1)]
  | p :: rest, a =>
      if p.1 = a then (p.1, p.2 + 1) :: rest else p :: bumpApp rest a

/-- `ADKAgentManager._update_active_application(app_name)`. -/
def update_active_application (st : AgentState) (app : String) : AgentState :=
  { activeApp := some app, appContext := bumpApp st.appContext app }

/-- The focus-sensitive tools of `_should_focus_application`. -/
def focusRequiredTools : List String :=
  ["click_element", "type_text", "press_key", "scroll"]

/-- `tool_args.get(key)` on the modelled keyword-argument list. -/
def argGet (args : List (String × String)) (k : String) : Option String :=
  (args.find? fun p => p.1 = k).map Prod.snd

/-- `ADKAgentManager._should_focus_application(tool_name, tool_args)`. -/
def should_focus_application (activeApp : Option String) (toolName : String)
    (args : List (String × String)) : Option String :=
  if toolName ∈ focusRequiredTools then
    match argGet args "app_name" with
    | some v => some v
    | none => activeApp
  else none

/-- `f"{result.error}"` on an `Optional[str]`. -/
def optRepr : Option String → String
  | none => "None"
  | some s => s

/-- Does the first character list occur at the start of the second? -/
def startsWithL : List Char → List Char → Bool
  | [], _ => true
  | _ :: _, [] => false
  | a :: as, b :: bs => a == b && startsWithL as bs

/-- Python `pat in s` on character lists. -/
def containsAux (pat : List Char) : List Char → Bool
  | [] => pat.isEmpty
  | c :: rest => startsWithL pat (c :: rest) || containsAux pat rest

/-- Python `pat in s` on strings. -/
def strContains (s pat : String) : Bool := containsAux pat.toList s.toList

/-- The transient-fault heuristic of `execute_instruction`:
`"timeout" in str(e).lower() or "connection" in str(e).lower()`. -/
def isTransient (e : String) : Bool :=
  strContains (pyLower e) "timeout" || strContains (pyLower e) "connection"

/-- How one run of the `for idx, tool_call in enumerate(tool_calls, 1)`
loop ends: all calls processed (`completed`), early `return` after a
subtask failure (`stopped`), or an exception escaping to the
planning-level handler (`raised`) — only the auto-focus call at the top
of the loop body sits outside the inner `try`. -/
inductive RunOutcome where
  | completed
  | stopped
  | raised (e : String)
deriving DecidableEq

/-- The auto-focus step at the top of the loop body (adk_agent.py lines
206–215): it sits *outside* the inner `try`, so a raising focus call
(`Except.error`) escapes to the planning-level handler. -/
def focus_step (tm : ToolBox) (st : AgentState) (c : ToolCall) :
    Except String AgentState :=
  match should_focus_application st.activeApp c.tool c.args with
  | some app =>
    if c.tool ≠ "focus_window" then
      match tm "focus_window" with
      | some f =>
        match f [("window_title", app)] with
        | Except.error e => Except.error e
        | Except.ok r =>
            Except.ok (if r.success then update_active_application st app else st)
      | none => Except.ok st
    else Except.ok st
  | none => Except.ok st

/-- The active-application bookkeeping for launch/focus calls
(adk_agent.py lines 217–223). -/
def context_step (st : AgentState) (c : ToolCall) : AgentState :=
  if c.tool = "launch_application" then
    update_active_application st ((argGet c.args "app_name").getD "unknown")
  else if c.tool = "focus_window" then
    update_active_application st ((argGet c.args "window_title").getD "unknown")
  else st

/-- The subtask record built for call number `idx` (1-indexed); `ra`
models Python's rendering `f"{func_args}"` of the argument dict. -/
def mkSubtask (ra : List (String × String) → String) (sid : String)
    (idx : Nat) (c : ToolCall) : Subtask :=
  { id := sid ++ "_subtask_" ++ toString idx,
    description := "Execute " ++ c.tool ++ " with args: " ++ ra c.args,
    status := "in_progress", tool_name := c.tool, tool_args := c.args }

/-- The in-progress update yielded before executing a call; call #1
attaches the "minimal" window directive. -/
def startUpdate (sid : String) (idx : Nat) (subtask : Subtask)
    (toolName : String) : StatusUpdate :=
  { session_id := sid, subtask := some subtask,
    overall_status := "in_progress",
    message := "Starting subtask: " ++ toolName,
    window_state := if idx = 1 then some "minimal" else none }

/-- Resolving and calling the tool inside the inner `try`: an unknown
name raises `ValueError`, modelled as the corresponding error string. -/
def exec_result (tm : ToolBox) (c : ToolCall) : Except String ToolResult :=
  match tm c.tool with
  | none => Except.error ("Tool '" ++ c.tool ++ "' not found in toolbox")
  | some f => f c.args

/-- The update yielded when a call completes successfully. -/
def successUpdate (sid : String) (subtask : Subtask) (toolName : String)
    (r : ToolResult) : StatusUpdate :=
  { session_id := sid,
    subtask := some { subtask with status := "completed", result := r.data },
    overall_status := "in_progress",
    message := "Completed subtask: " ++ toolName }

/-- The update yielded when a call reports failure (note: no window
directive on this one). -/
def failedResUpdate (sid : String) (subtask : Subtask)
    (r : ToolResult) : StatusUpdate :=
  { session_id := sid,
    subtask := some { subtask with status := "failed", error := r.error },
    overall_status := "failed",
    message := "Failed: " ++ optRepr r.error }

/-- The extra restore update yielded after a reported failure, before
the early `return`. -/
def failedRestoreUpdate (sid : String) : StatusUpdate :=
  { session_id := sid, subtask := none, overall_status := "failed",
    message := "Execution failed, restoring window",
    window_state := some "normal" }

/-- The update yielded by the inner `except` when the call (or tool
resolution) raised. -/
def failedExcUpdate (sid : String) (subtask : Subtask) (toolName e : String) :
    StatusUpdate :=
  { session_id := sid,
    subtask := some { subtask with status := "failed", error := some e },
    overall_status := "failed",
    message := "Error executing " ++ toolName ++ ": " ++ e,
    window_state := some "normal" }

/-- The tool-call loop of `ADKAgentManager.execute_instruction`
(adk_agent.py lines 202–298), 1-indexed at `idx`.  Returns the yielded
`StatusUpdate` stream, the list of plan calls whose execution was
attempted (the instrumentation trace), and how the loop ended. -/
def runCalls (tm : ToolBox) (ra : List (String × String) → String)
    (sid : String) : Nat → AgentState → List ToolCall →
    List StatusUpdate × List ToolCall × RunOutcome
  | _, _, [] => ([], [], RunOutcome.completed)
  | idx, st, c :: rest =>
    match focus_step tm st c with
    | Except.error e => ([], [], RunOutcome.raised e)
    | Except.ok st1 =>
      let st2 := context_step st1 c
      let subtask := mkSubtask ra sid idx c
      let u1 := startUpdate sid idx subtask c.tool
      match exec_result tm c with
      | Except.error e =>
          ([u1, failedExcUpdate sid subtask c.tool e], [c], RunOutcome.stopped)
      | Except.ok r =>
        if r.success then
          let next := runCalls tm ra sid (idx + 1) st2 rest
          (u1 :: successUpdate sid subtask c.tool r :: next.1,
           c :: next.2.1, next.2.2)
        else
          ([u1, failedResUpdate sid subtask r, failedRestoreUpdate sid],
           [c], RunOutcome.stopped)

/-- The terminal update of the empty-parse path (`if not tool_calls:`):
note it carries *no* window directive. -/
def emptyParseUpdate (sid : String) : StatusUpdate :=
  { session_id := sid, subtask := none, overall_status := "completed",
    message := "Task completed (no actions required)" }

/-- The final update after all calls succeed. -/
def completedUpdate (sid : String) : StatusUpdate :=
  { session_id := sid, subtask := none, overall_status := "completed",
    message := "Task execution completed successfully",
    window_state := some "normal" }

/-- The terminal update of the non-transient planning-fault handler. -/
def agentErrorUpdate (sid : String) (e : String) : StatusUpdate :=
  { session_id := sid, subtask := none, overall_status := "failed",
    message := "ADK agent error: " ++ e, window_state := some "normal" }

/-- `ADKAgentManager.execute_instruction(instruction, session_id)` for an
initialised agent.  `planner` models one Gemini completion plus
`_parse_tool_calls` per (re-)run: run index ↦ either a raised exception
message or the parsed tool-call list (prompt construction, which only
feeds the Planner, is subsumed in this parameter).  The transient-fault
handler re-runs the whole instruction recursively and without bound —
`fuel` makes the recursion well-founded, `none` standing for
non-termination.  On `some (updates, n)`, `updates` is the yielded
stream and `n` the number of planner runs performed. -/
def execute_instruction (planner : Nat → Except String (List ToolCall))
    (tm : ToolBox) (ra : List (String × String) → String) (sid : String) :
    Nat → Nat → Option (List StatusUpdate × Nat)
  | 0, _ => none
  | fuel + 1, runIdx =>
    match planner runIdx with
    | Except.error e =>
      if isTransient e then
        (execute_instruction planner tm ra sid fuel (runIdx + 1)).map
          fun uc => (uc.1, uc.2 + 1)
      else some ([agentErrorUpdate sid e], 1)
    | Except.ok calls =>
      match calls with
      | [] => some ([emptyParseUpdate sid], 1)
      | _ :: _ =>
        match runCalls tm ra sid 1 {} calls with
        | (ups, _, RunOutcome.completed) =>
            some (ups ++ [completedUpdate sid], 1)
        | (ups, _, RunOutcome.stopped) => some (ups, 1)
        | (ups, _, RunOutcome.raised e) =>
          if isTransient e then
            (execute_instruction planner tm ra sid fuel (runIdx + 1)).map
              fun uc => (ups ++ uc.1, uc.2 + 1)
          else some (ups ++ [agentErrorUpdate sid e], 1)

/-- The extra restore update `process_execution_queue` broadcasts when
the terminal update it relayed lacked a "normal" window directive
(main.py lines 461–487). -/
def restoreUpdate (sid status : String) : StatusUpdate :=
  { session_id := sid, subtask := none, overall_status := status,
    message := "Restoring window to normal state",
    window_state := some "normal" }

/-- The relay loop of `process_execution_queue`: broadcast each update;
on the first update with `overall_status ∈ {completed, failed}`, append
a restore update if it lacked one, and stop consuming the stream. -/
def relayUpdates (sid : String) : List StatusUpdate → List StatusUpdate
  | [] => []
  | u :: rest =>
    if u.overall_status = "completed" ∨ u.overall_status = "failed" then
      if u.window_state ≠ some "normal" then
        [u, restoreUpdate sid u.overall_status]
      else [u]
    else u :: relayUpdates sid rest

/-- Executing this call fails: the tool is unknown, the call raises, or
the tool reports `success=False`. -/
def callFails (tm : ToolBox) (c : ToolCall) : Bool :=
  match tm c.tool with
  | none => true
  | some f =>
    match f c.args with
    | Except.error _ => true
    | Except.ok r => !r.success

/-- The update has a terminal overall status in the dispatcher's sense. -/
def isTerminalUpd (u : StatusUpdate) : Bool :=
  u.overall_status = "completed" || u.overall_status = "failed"

theorem callFails_eq (tm : ToolBox) (c : ToolCall) :
    callFails tm c =
      (match exec_result tm c with
       | Except.error _ => true
       | Except.ok r => !r.success) := by
  unfold callFails exec_result
  cases tm c.tool with
  | none => rfl
  | some f => cases f c.args <;> rfl

theorem runCalls_char (tm : ToolBox) (ra : List (String × String) → String)
    (sid : String) :
    ∀ (calls : List ToolCall) (idx : Nat) (st : AgentState),
      (∃ n, n ≤ calls.length ∧
        (runCalls tm ra sid idx st calls).2.1 = calls.take n)
      ∧ (∀ c' ∈ (runCalls tm ra sid idx st calls).2.1.dropLast,
          callFails tm c' = false)
      ∧ ((runCalls tm ra sid idx st calls).2.2 = RunOutcome.stopped →
          (∃ c', (runCalls tm ra sid idx st calls).2.1.getLast? = some c' ∧
            callFails tm c' = true)
          ∧ (∃ u, (runCalls tm ra sid idx st calls).1.getLast? = some u ∧
              u.overall_status = "failed" ∧ u.window_state = some "normal"))
      ∧ (∀ c' ∈ (runCalls tm ra sid idx st calls).2.1,
          callFails tm c' = true →
          (runCalls tm ra sid idx st calls).2.2 = RunOutcome.stopped) := by
  intro calls
  induction calls with
  | nil =>
    intro idx st
    refine ⟨⟨0, by simp, rfl⟩, by simp [runCalls], ?_, by simp [runCalls]⟩
    intro h
    simp [runCalls] at h
  | cons c rest ih =>
    intro idx st
    cases hfs : focus_step tm st c with
    | error e =>
      have hred : runCalls tm ra sid idx st (c :: rest) =
          ([], [], RunOutcome.raised e) := by
        simp only [runCalls, hfs]
      rw [hred]
      refine ⟨⟨0, by simp, rfl⟩, by simp, ?_, by simp⟩
      intro h
      simp at h
    | ok st1 =>
      cases hex : exec_result tm c with
      | error e =>
        have hcf : callFails tm c = true := by rw [callFails_eq, hex]
        have hred : runCalls tm ra sid idx st (c :: rest) =
            ([startUpdate sid idx (mkSubtask ra sid idx c) c.tool,
              failedExcUpdate sid (mkSubtask ra sid idx c) c.tool e],
             [c], RunOutcome.stopped) := by
          simp only [runCalls, hfs, hex]
        rw [hred]
        refine ⟨⟨1, by simp, by simp⟩, by simp, ?_, by simp⟩
        intro _
        exact ⟨⟨c, by simp, hcf⟩,
          ⟨failedExcUpdate sid (mkSubtask ra sid idx c) c.tool e,
           by simp, rfl, rfl⟩⟩
      | ok r =>
        cases hs : r.success with
        | false =>
          have hcf : callFails tm c = true := by
            rw [callFails_eq, hex]
            simp [hs]
          have hred : runCalls tm ra sid idx st (c :: rest) =
              ([startUpdate sid idx (mkSubtask ra sid idx c) c.tool,
                failedResUpdate sid (mkSubtask ra sid idx c) r,
                failedRestoreUpdate sid],
               [c], RunOutcome.stopped) := by
            simp only [runCalls, hfs, hex, hs, Bool.false_eq_true, if_false]
          rw [hred]
          refine ⟨⟨1, by simp, by simp⟩, by simp, ?_, by simp⟩
          intro _
          exact ⟨⟨c, by simp, hcf⟩,
            ⟨failedRestoreUpdate sid, by simp, rfl, rfl⟩⟩
        | true =>
          have hcf : callFails tm c = false := by
            rw [callFails_eq, hex]
            simp [hs]
          have hred : runCalls tm ra sid idx st (c :: rest) =
              (startUpdate sid idx (mkSubtask ra sid idx c) c.tool ::
                successUpdate sid (mkSubtask ra sid idx c) c.tool r ::
                (runCalls tm ra sid (idx + 1) (context_step st1 c) rest).1,
               c :: (runCalls tm ra sid (idx + 1) (context_step st1 c) rest).2.1,
               (runCalls tm ra sid (idx + 1) (context_step st1 c) rest).2.2) := by
            simp only [runCalls, hfs, hex, hs, if_true]
          obtain ⟨⟨n, hn, htake⟩, hdrop, hstop, hfailimp⟩ :=
            ih (idx + 1) (context_step st1 c)
          rw [hred]
          refine ⟨⟨n + 1, by simp; omega, by simp [htake]⟩, ?_, ?_, ?_⟩
          · intro c' hc'
            cases hl : (runCalls tm ra sid (idx + 1)
                (context_step st1 c) rest).2.1 with
            | nil =>
              rw [hl] at hc'
              simp at hc'
            | cons x xs =>
              rw [hl] at hc'
              rw [List.dropLast_cons₂] at hc'
              rcases List.mem_cons.mp hc' with h | h
              · rw [h]; exact hcf
              · apply hdrop
                rw [hl]
                exact h
          · intro h
            obtain ⟨⟨c', hc', hcf'⟩, ⟨u, hu, hust, huw⟩⟩ := hstop h
            constructor
            · refine ⟨c', ?_, hcf'⟩
              have hne : (runCalls tm ra sid (idx + 1)
                  (context_step st1 c) rest).2.1 ≠ [] := by
                intro hnil
                rw [hnil] at hc'
                simp at hc'
              cases hl : (runCalls tm ra sid (idx + 1)
                  (context_step st1 c) rest).2.1 with
              | nil => exact absurd hl hne
              | cons x xs =>
                rw [List.getLast?_cons_cons]
                rw [hl] at hc'
                exact hc'
            · refine ⟨u, ?_, hust, huw⟩
              have hne : (runCalls tm ra sid (idx + 1)
                  (context_step st1 c) rest).1 ≠ [] := by
                intro hnil
                rw [hnil] at hu
                simp at hu
              cases hl : (runCalls tm ra sid (idx + 1)
                  (context_step st1 c) rest).1 with
              | nil => exact absurd hl hne
              | cons x xs =>
                rw [List.getLast?_cons_cons, List.getLast?_cons_cons]
                rw [hl] at hu
                exact hu
          · intro c' hc' hcf'
            rcases List.mem_cons.mp hc' with h | h
            · rw [h] at hcf'
              rw [hcf] at hcf'
              simp at hcf'
            · exact hfailimp c' h hcf'

theorem fails_getLast (tm : ToolBox) (l : List ToolCall) (c' : ToolCall)
    (hmem : c' ∈ l) (hdrop : ∀ x ∈ l.dropLast, callFails tm x = false)
    (hf : callFails tm c' = true) : l.getLast? = some c' := by
  have hne : l ≠ [] := by rintro rfl; simp at hmem
  have hsplit := List.dropLast_append_getLast hne
  rw [← hsplit] at hmem
  rcases List.mem_append.mp hmem with h | h
  · have hff := hdrop c' h
    rw [hff] at hf
    exact absurd hf (by simp)
  · simp only [List.mem_singleton] at h
    rw [h]
    exact List.getLast?_eq_getLast l hne

/-- C4 — confirmed.  The loop executes plan calls strictly in order: the
attempted calls always form a prefix of the plan, every attempted call
before the last one succeeded, and if an attempted call fails (tool
reports failure, tool unknown, or the call raises) it is the last one
attempted — no later call runs — and the whole
`execute_instruction` run returns with a final `StatusUpdate` whose
overall status is `failed` (carrying the restore directive). -/
theorem plan_order_spec (tm : ToolBox) (ra : List (String × String) → String)
    (sid : String) (calls : List ToolCall)
    (planner : Nat → Except String (List ToolCall)) (fuel runIdx : Nat)
    (hplan : planner runIdx = Except.ok calls) (hne : calls ≠ []) :
    (∃ n, n ≤ calls.length ∧
      (runCalls tm ra sid 1 {} calls).2.1 = calls.take n)
    ∧ (∀ c' ∈ (runCalls tm ra sid 1 {} calls).2.1.dropLast,
        callFails tm c' = false)
    ∧ (∀ c' ∈ (runCalls tm ra sid 1 {} calls).2.1, callFails tm c' = true →
        (runCalls tm ra sid 1 {} calls).2.2 = RunOutcome.stopped ∧
        (runCalls tm ra sid 1 {} calls).2.1.getLast? = some c')
    ∧ ((runCalls tm ra sid 1 {} calls).2.2 = RunOutcome.stopped →
        ∃ ups, execute_instruction planner tm ra sid (fuel + 1) runIdx =
            some (ups, 1) ∧
          ∃ u, ups.getLast? = some u ∧ u.overall_status = "failed" ∧
            u.window_state = some "normal") := by
  obtain ⟨hpre, hdrop, hstop, hfailimp⟩ := runCalls_char tm ra sid calls 1 {}
  refine ⟨hpre, hdrop, ?_, ?_⟩
  · intro c' hc' hcf
    exact ⟨hfailimp c' hc' hcf,
      fails_getLast tm _ c' hc' hdrop hcf⟩
  · intro hstopped
    obtain ⟨c0, cs, rfl⟩ : ∃ c0 cs, calls = c0 :: cs := by
      cases calls with
      | nil => exact absurd rfl hne
      | cons a b => exact ⟨a, b, rfl⟩
    obtain ⟨_, ⟨u, hu, hust, huw⟩⟩ := hstop hstopped
    rcases hrc : runCalls tm ra sid 1 {} (c0 :: cs) with ⟨ups0, ex0, out0⟩
    rw [hrc] at hstopped hu
    have hout : out0 = RunOutcome.stopped := hstopped
    have hu' : ups0.getLast? = some u := hu
    subst hout
    refine ⟨ups0, ?_, u, hu', hust, huw⟩
    simp only [execute_instruction, hplan, hrc]

/-- The toolbox used by the plan-order witness: `tool_ok` succeeds,
`tool_bad` reports failure, everything else is unknown. -/
def tmW : ToolBox := fun name =>
  if name = "tool_ok" then some fun _ => Except.ok { success := true }
  else if name = "tool_bad" then
    some fun _ => Except.ok { success := false, error := some "x" }
  else none

/-- Witness for `plan_order_spec`: the three-call plan ok/bad/ok stops
at the failing second call — it is the last attempted one — and the run
ends with a failed update carrying the restore directive. -/
theorem plan_order_spec_witness :
    ((runCalls tmW (fun _ => "") "s" 1 {}
        [⟨"tool_ok", []⟩, ⟨"tool_bad", []⟩, ⟨"tool_ok", []⟩]).2.2 =
          RunOutcome.stopped ∧
      (runCalls tmW (fun _ => "") "s" 1 {}
        [⟨"tool_ok", []⟩, ⟨"tool_bad", []⟩, ⟨"tool_ok", []⟩]).2.1.getLast? =
          some ⟨"tool_bad", []⟩) ∧
    ∃ ups, execute_instruction
        (fun _ => Except.ok [⟨"tool_ok", []⟩, ⟨"tool_bad", []⟩, ⟨"tool_ok", []⟩])
        tmW (fun _ => "") "s" 3 0 = some (ups, 1) ∧
      ∃ u, ups.getLast? = some u ∧ u.overall_status = "failed" ∧
        u.window_state = some "normal" := by
  have h := plan_order_spec tmW (fun _ => "") "s"
    [⟨"tool_ok", []⟩, ⟨"tool_bad", []⟩, ⟨"tool_ok", []⟩]
    (fun _ => Except.ok [⟨"tool_ok", []⟩, ⟨"tool_bad", []⟩, ⟨"tool_ok", []⟩])
    2 0 rfl (by simp)
  exact ⟨h.2.2.1 ⟨"tool_bad", []⟩ (by decide) (by decide), h.2.2.2 (by decide)⟩

/-- C2 — amended.  A planning-level fault with a transient message
(timeout/connection) triggers a full retry of the whole instruction
after a short delay — and this repeats on *every* transient fault, also
in retried runs, without bound (the local `max_retries = 1` variable is
never consulted); a non-transient planning fault instead yields exactly
one terminal `StatusUpdate` with `overall_status="failed"` and the
"restore" window directive. -/
theorem planning_fault_spec (planner : Nat → Except String (List ToolCall))
    (tm : ToolBox) (ra : List (String × String) → String) (sid : String)
    (fuel runIdx : Nat) (e : String)
    (he : planner runIdx = Except.error e) :
    (isTransient e = false →
      execute_instruction planner tm ra sid (fuel + 1) runIdx =
        some ([agentErrorUpdate sid e], 1))
    ∧ (isTransient e = true →
      execute_instruction planner tm ra sid (fuel + 1) runIdx =
        (execute_instruction planner tm ra sid fuel (runIdx + 1)).map
          fun uc => (uc.1, uc.2 + 1)) := by
  constructor
  · intro ht
    simp only [execute_instruction, he, ht, Bool.false_eq_true, if_false]
  · intro ht
    simp only [execute_instruction, he, ht, if_true]

/-- Witness for `planning_fault_spec`: a non-transient planner fault
produces the single terminal failed-with-restore update, and a transient
one re-runs the instruction (here: the retried run parses an empty plan,
so two planner runs happen in total). -/
theorem planning_fault_spec_witness :
    execute_instruction (fun _ => Except.error "boom") (fun _ => none)
        (fun _ => "") "s" 3 0 = some ([agentErrorUpdate "s" "boom"], 1) ∧
    execute_instruction
        (fun n => if n = 0 then Except.error "connection lost"
                  else Except.ok [])
        (fun _ => none) (fun _ => "") "s" 3 0 =
      some ([emptyParseUpdate "s"], 2) := by
  constructor
  · exact (planning_fault_spec (fun _ => Except.error "boom") (fun _ => none)
      (fun _ => "") "s" 2 0 "boom" rfl).1 (by decide)
  · have h := (planning_fault_spec
      (fun n => if n = 0 then Except.error "connection lost"
                else Except.ok [])
      (fun _ => none) (fun _ => "") "s" 2 0 "connection lost" rfl).2
      (by decide)
    rw [h]
    rfl

/-- C2 — counterexample to the claim as stated.  The claim says the
whole instruction is retried *exactly once — never more than once, even
if the retried run faults transiently again*.  But the handler retries
by unbounded recursion (its `max_retries = 1` is dead code): with a
planner that faults transiently on runs 0 and 1 and succeeds on run 2,
the instruction is run three times (two retries), not abandoned after
one retry. -/
theorem planning_retry_counterexample :
    execute_instruction
        (fun n => if n < 2 then Except.error "timeout" else Except.ok [])
        (fun _ => none) (fun _ => "") "s" 10 0 =
      some ([emptyParseUpdate "s"], 3) := by
  rfl

theorem exec_any_terminal (planner : Nat → Except String (List ToolCall))
    (tm : ToolBox) (ra : List (String × String) → String) (sid : String) :
    ∀ (fuel runIdx : Nat) (uc : List StatusUpdate × Nat),
      execute_instruction planner tm ra sid fuel runIdx = some uc →
      uc.1.any isTerminalUpd = true := by
  intro fuel
  induction fuel with
  | zero =>
    intro runIdx uc h
    exact absurd h (by simp [execute_instruction])
  | succ f ih =>
    intro runIdx uc h
    cases hp : planner runIdx with
    | error e =>
      by_cases ht : isTransient e = true
      · simp only [execute_instruction, hp, ht, if_true] at h
        cases hrec : execute_instruction planner tm ra sid f (runIdx + 1) with
        | none => rw [hrec] at h; exact absurd h (by simp)
        | some uc0 =>
          rw [hrec] at h
          have hh : (uc0.1, uc0.2 + 1) = uc := Option.some.inj h
          have hups : uc.1 = uc0.1 := by rw [← hh]
          rw [hups]
          exact ih (runIdx + 1) uc0 hrec
      · have ht' : isTransient e = false := by
          revert ht; cases isTransient e <;> simp
        simp only [execute_instruction, hp, ht', Bool.false_eq_true,
          if_false] at h
        have hh := Option.some.inj h
        rw [← hh]
        simp [isTerminalUpd, agentErrorUpdate]
    | ok calls =>
      cases calls with
      | nil =>
        simp only [execute_instruction, hp] at h
        have hh := Option.some.inj h
        rw [← hh]
        simp [isTerminalUpd, emptyParseUpdate]
      | cons c0 cs =>
        rcases hrc : runCalls tm ra sid 1 {} (c0 :: cs) with ⟨ups0, ex0, out0⟩
        cases out0 with
        | completed =>
          simp only [execute_instruction, hp, hrc] at h
          have hh := Option.some.inj h
          rw [← hh]
          simp [isTerminalUpd, completedUpdate]
        | stopped =>
          simp only [execute_instruction, hp, hrc] at h
          have hh := Option.some.inj h
          rw [← hh]
          have hchar := (runCalls_char tm ra sid (c0 :: cs) 1 {}).2.2.1
          rw [hrc] at hchar
          obtain ⟨_, ⟨u, hu, hust, _⟩⟩ := hchar rfl
          have hu' : ups0.getLast? = some u := hu
          have hsplit := List.dropLast_append_getLast? u hu'
          have hmem : u ∈ ups0 := by
            rw [← hsplit]
            exact List.mem_append_right _ (by simp)
          simp only [List.any_eq_true]
          exact ⟨u, hmem, by simp [isTerminalUpd, hust]⟩
        | raised e =>
          by_cases ht : isTransient e = true
          · simp only [execute_instruction, hp, hrc, ht, if_true] at h
            cases hrec : execute_instruction planner tm ra sid f
                (runIdx + 1) with
            | none => rw [hrec] at h; exact absurd h (by simp)
            | some uc0 =>
              rw [hrec] at h
              have hh : (ups0 ++ uc0.1, uc0.2 + 1) = uc := Option.some.inj h
              have hups : uc.1 = ups0 ++ uc0.1 := by rw [← hh]
              rw [hups]
              have hrec' := ih (runIdx + 1) uc0 hrec
              simp [List.any_append, hrec']
          · have ht' : isTransient e = false := by
              revert ht; cases isTransient e <;> simp
            simp only [execute_instruction, hp, hrc, ht', Bool.false_eq_true,
              if_false] at h
            have hh := Option.some.inj h
            rw [← hh]
            simp [List.any_append, isTerminalUpd, agentErrorUpdate]

theorem relay_terminal (sid : String) :
    ∀ ups : List StatusUpdate, ups.any isTerminalUpd = true →
      ∃ u, (relayUpdates sid ups).getLast? = some u ∧
        (u.overall_status = "completed" ∨ u.overall_status = "failed") ∧
        u.window_state = some "normal" := by
  intro ups
  induction ups with
  | nil => intro h; simp at h
  | cons v rest ih =>
    intro h
    by_cases hv : v.overall_status = "completed" ∨ v.overall_status = "failed"
    · by_cases hw : v.window_state ≠ some "normal"
      · refine ⟨restoreUpdate sid v.overall_status, ?_, ?_, rfl⟩
        · simp [relayUpdates, hv, hw]
        · simpa [restoreUpdate] using hv
      · push_neg at hw
        refine ⟨v, ?_, hv, hw⟩
        simp [relayUpdates, hv, hw]
    · have hvb : isTerminalUpd v = false := by
        push_neg at hv
        simp [isTerminalUpd, hv.1, hv.2]
      have hr : rest.any isTerminalUpd = true := by
        simp only [List.any_cons, hvb, Bool.false_or] at h
        exact h
      obtain ⟨u, hu, hterm, hwn⟩ := ih hr
      refine ⟨u, ?_, hterm, hwn⟩
      have hne : relayUpdates sid rest ≠ [] := by
        intro hnil
        rw [hnil] at hu
        exact absurd hu (by simp)
      rw [show relayUpdates sid (v :: rest) = v :: relayUpdates sid rest by
        simp [relayUpdates, hv]]
      cases hl : relayUpdates sid rest with
      | nil => exact absurd hl hne
      | cons x xs =>
        rw [List.getLast?_cons_cons]
        rw [hl] at hu
        exact hu

/-- C6 — amended.  Every terminating run of an instruction ends, at the
dispatcher's broadcast stream, with a terminal `StatusUpdate`
(`completed`/`failed`) that carries the "restore" (`normal`) window
directive: the runner's own terminal update carries it on the normal
and failure paths, and when it does not (e.g. the empty-parse completed
update), `process_execution_queue` appends a restore update before
moving on.  It is *not* the case that every terminal update itself
carries the directive — see the counterexample. -/
theorem terminal_restore_spec (planner : Nat → Except String (List ToolCall))
    (tm : ToolBox) (ra : List (String × String) → String) (sid : String)
    (fuel runIdx : Nat) (ups : List StatusUpdate) (n : Nat)
    (h : execute_instruction planner tm ra sid fuel runIdx = some (ups, n)) :
    ∃ u, (relayUpdates sid ups).getLast? = some u ∧
      (u.overall_status = "completed" ∨ u.overall_status = "failed") ∧
      u.window_state = some "normal" :=
  relay_terminal sid ups
    (exec_any_terminal planner tm ra sid fuel runIdx (ups, n) h)

/-- Witness for `terminal_restore_spec`: the empty-parse run yields a
directive-less completed update, and the relayed stream still ends with
a restore-carrying terminal update appended by the dispatcher. -/
theorem terminal_restore_spec_witness :
    ∃ u, (relayUpdates "s" [emptyParseUpdate "s"]).getLast? = some u ∧
      (u.overall_status = "completed" ∨ u.overall_status = "failed") ∧
      u.window_state = some "normal" :=
  terminal_restore_spec (fun _ => Except.ok []) (fun _ => none) (fun _ => "")
    "s" 1 0 [emptyParseUpdate "s"] 1 rfl

/-- C6 — counterexample to the claim as stated.  On the empty-parse path
the runner's terminal update has `overall_status="completed"` but *no*
window directive at all, so not every terminal `StatusUpdate` emitted
for a run carries the "restore" directive (the dispatcher compensates
with a separate extra update). -/
theorem terminal_restore_counterexample :
    execute_instruction (fun _ => Except.ok []) (fun _ => none) (fun _ => "")
        "s" 1 0 = some ([emptyParseUpdate "s"], 1) ∧
    (emptyParseUpdate "s").overall_status = "completed" ∧
    (emptyParseUpdate "s").window_state = none :=
  ⟨rfl, rfl, rfl⟩
